import Mathlib

/-!
Shallow embedding of the Bill.com / Airtable synchronization glue layer:
the reconciliation engine (`sync.js`, mirrored into the `Bill Reporting`
table), the Airtable record-store wrapper (`common/airtable.js`) and the
bill-creation workflow (`bill_com_integration/create_bill.js`), together
with proofs of the specification's testable properties.

JavaScript `Map`s and plain field objects are embedded as association
lists over `String` keys; asynchronous calls that can fail are embedded
as `Except String`; external services (Bill.com API, Airtable backend,
HTTP fetch) are passed in as explicit oracles.
-/

namespace BillSync

/-! ## Association lists: the embedding of JS `Map` objects and field objects -/

/-- `Map.get` / property lookup: first entry with the given key. -/
def alGet {β : Type} (m : List (String × β)) (k : String) : Option β :=
  match m with
  | [] => none
  | (k0, v0) :: rest => if k0 = k then some v0 else alGet rest k

/-- `Map.set` / property assignment: replace in place, else append
(JS `Map`s and objects preserve insertion order). -/
def alSet {β : Type} (m : List (String × β)) (k : String) (v : β) : List (String × β) :=
  match m with
  | [] => [(k, v)]
  | (k0, v0) :: rest => if k0 = k then (k, v) :: rest else (k0, v0) :: alSet rest k v

/-- `Map.delete`: remove the entry with the given key (JS map keys are unique). -/
def alDel {β : Type} (m : List (String × β)) (k : String) : List (String × β) :=
  match m with
  | [] => []
  | (k0, v0) :: rest => if k0 = k then rest else (k0, v0) :: alDel rest k

/-- Well-formedness of an embedded map: keys are pairwise distinct,
as they always are for a JS `Map` or object. -/
def AListWF {β : Type} (m : List (String × β)) : Prop :=
  (m.map Prod.fst).Nodup

theorem alGet_nil {β : Type} (k : String) : alGet ([] : List (String × β)) k = none := rfl

theorem alGet_cons {β : Type} (k0 : String) (v0 : β) (rest : List (String × β)) (k : String) :
    alGet ((k0, v0) :: rest) k = if k0 = k then some v0 else alGet rest k := rfl

theorem alGet_alSet {β : Type} (m : List (String × β)) (k : String) (v : β) (k' : String) :
    alGet (alSet m k v) k' = if k = k' then some v else alGet m k' := by
  induction m with
  | nil => by_cases h : k = k' <;> simp [alSet, alGet, h]
  | cons p rest ih =>
    obtain ⟨k0, v0⟩ := p
    simp only [alSet]
    by_cases h0 : k0 = k
    · subst h0
      simp only [if_pos rfl, alGet_cons]
      by_cases h : k0 = k' <;> simp [alGet, h]
    · simp only [if_neg h0, alGet_cons, ih]
      by_cases h1 : k0 = k'
      · subst h1
        simp [Ne.symm h0]
      · simp [h1]

theorem alGet_alSet_self {β : Type} (m : List (String × β)) (k : String) (v : β) :
    alGet (alSet m k v) k = some v := by
  simp [alGet_alSet]

theorem alGet_alSet_ne {β : Type} (m : List (String × β)) (k : String) (v : β)
    (k' : String) (h : k ≠ k') :
    alGet (alSet m k v) k' = alGet m k' := by
  simp [alGet_alSet, h]

theorem alGet_alDel_ne {β : Type} (m : List (String × β)) (k k' : String) (h : k' ≠ k) :
    alGet (alDel m k) k' = alGet m k' := by
  induction m with
  | nil => simp [alDel]
  | cons p rest ih =>
    obtain ⟨k0, v0⟩ := p
    simp only [alDel]
    by_cases h0 : k0 = k
    · have hk0 : k0 ≠ k' := fun hh => h (hh.symm.trans h0)
      rw [if_pos h0, alGet_cons, if_neg hk0]
    · rw [if_neg h0, alGet_cons, alGet_cons, ih]

theorem alGet_eq_none_iff {β : Type} (m : List (String × β)) (k : String) :
    alGet m k = none ↔ k ∉ m.map Prod.fst := by
  induction m with
  | nil => simp [alGet]
  | cons p rest ih =>
    obtain ⟨k0, v0⟩ := p
    rw [alGet_cons, List.map_cons, List.mem_cons]
    by_cases h0 : k0 = k
    · subst h0
      simp
    · simp [h0, ih, Ne.symm h0]

theorem alGet_alDel_self {β : Type} (m : List (String × β)) (k : String) (hwf : AListWF m) :
    alGet (alDel m k) k = none := by
  induction m with
  | nil => simp [alDel, alGet]
  | cons p rest ih =>
    obtain ⟨k0, v0⟩ := p
    rw [AListWF, List.map_cons, List.nodup_cons] at hwf
    by_cases h0 : k0 = k
    · subst h0
      simpa [alDel, alGet_eq_none_iff] using hwf.1
    · simp [alDel, alGet, h0, ih hwf.2]

theorem alGet_alDel_none {β : Type} (m : List (String × β)) (k k' : String)
    (h : alGet m k' = none) : alGet (alDel m k) k' = none := by
  induction m with
  | nil => simp [alDel, alGet]
  | cons p rest ih =>
    obtain ⟨k0, v0⟩ := p
    rw [alGet_cons] at h
    by_cases h1 : k0 = k'
    · simp [h1] at h
    · rw [if_neg h1] at h
      simp only [alDel]
      by_cases h0 : k0 = k
      · rw [if_pos h0]
        exact h
      · rw [if_neg h0, alGet_cons, if_neg h1]
        exact ih h

theorem keys_alSet {β : Type} (m : List (String × β)) (k : String) (v : β) :
    (alSet m k v).map Prod.fst =
      if k ∈ m.map Prod.fst then m.map Prod.fst else m.map Prod.fst ++ [k] := by
  induction m with
  | nil => simp [alSet]
  | cons p rest ih =>
    obtain ⟨k0, v0⟩ := p
    by_cases h0 : k0 = k
    · subst h0
      simp [alSet]
    · by_cases h1 : k ∈ rest.map Prod.fst <;>
        simp [alSet, h0, ih, h1, Ne.symm h0]

theorem AListWF.alSet {β : Type} {m : List (String × β)} (hwf : AListWF m)
    (k : String) (v : β) : AListWF (BillSync.alSet m k v) := by
  rw [AListWF, keys_alSet]
  by_cases h : k ∈ m.map Prod.fst
  · simpa [h] using hwf
  · simp only [h, if_false]
    rw [List.nodup_append]
    exact ⟨hwf, List.nodup_singleton k, by simpa using h⟩

theorem keys_alDel_sublist {β : Type} (m : List (String × β)) (k : String) :
    ((alDel m k).map Prod.fst).Sublist (m.map Prod.fst) := by
  induction m with
  | nil => simp [alDel]
  | cons p rest ih =>
    obtain ⟨k0, v0⟩ := p
    by_cases h0 : k0 = k
    · simp only [alDel, h0, if_true, List.map_cons]
      exact (List.sublist_cons_self _ _)
    · simp only [alDel, h0, if_false, List.map_cons]
      exact ih.cons₂ k0

theorem AListWF.alDel {β : Type} {m : List (String × β)} (hwf : AListWF m) (k : String) :
    AListWF (BillSync.alDel m k) :=
  (keys_alDel_sublist m k).nodup hwf

theorem AListWF.nil {β : Type} : AListWF ([] : List (String × β)) := by
  simp [AListWF]

theorem mem_of_alGet {β : Type} {m : List (String × β)} {k : String} {v : β}
    (h : alGet m k = some v) : (k, v) ∈ m := by
  induction m with
  | nil => simp [alGet] at h
  | cons p rest ih =>
    obtain ⟨k0, v0⟩ := p
    rw [alGet_cons] at h
    by_cases h0 : k0 = k
    · simp [h0] at h
      simp [h0, h]
    · simp [h0] at h
      exact List.mem_cons_of_mem _ (ih h)

theorem alGet_of_mem {β : Type} {m : List (String × β)} {k : String} {v : β}
    (hwf : AListWF m) (h : (k, v) ∈ m) : alGet m k = some v := by
  induction m with
  | nil => simp at h
  | cons p rest ih =>
    obtain ⟨k0, v0⟩ := p
    rw [AListWF, List.map_cons, List.nodup_cons] at hwf
    rcases List.mem_cons.mp h with h1 | h1
    · rw [Prod.mk.injEq] at h1
      obtain ⟨rfl, rfl⟩ := h1
      simp [alGet]
    · have hk : k0 ≠ k := by
        rintro rfl
        exact hwf.1 (List.mem_map.mpr ⟨(k0, v), h1, rfl⟩)
      simp [alGet, hk, ih hwf.2 h1]

theorem eq_nil_of_alGet_none {β : Type} {m : List (String × β)}
    (h : ∀ k, alGet m k = none) : m = [] := by
  cases m with
  | nil => rfl
  | cons p rest =>
    obtain ⟨k0, v0⟩ := p
    have := h k0
    simp [alGet] at this

/-! ## Field values and field objects

Airtable field objects (`{Active: true, 'Vendor Name': ..., ...}`) are
embedded as association lists of `Val`; `Val.null` stands for a JS
`null`/`undefined` field value. -/

/-- A JS value stored in an Airtable field. -/
inductive Val : Type where
  | str (s : String)
  | bool (b : Bool)
  | num (n : Int)
  | null
  | docList (urls : List String)
deriving DecidableEq, Repr

/-- A field object: field name to value, insertion-ordered. -/
abbrev Fields : Type := List (String × Val)

/-- Converts an optional JS string (`undefined` when `none`) to a field value. -/
def optVal (o : Option String) : Val :=
  match o with
  | some s => Val.str s
  | none => Val.null

/-- JS `a || b` for a possibly-undefined string `a`
(`undefined` and `""` are falsy). -/
def jsOr (o : Option String) (d : String) : String :=
  match o with
  | some s => if s = "" then d else s
  | none => d

/-- Applies a field object as an update on top of existing fields, one
assignment per field, as an Airtable `update` call does. -/
def setFields (base upd : Fields) : Fields :=
  upd.foldl (fun b p => alSet b p.1 p.2) base

/-- A field-object literal `{n₁: v₁, ...}`: later duplicate names overwrite
earlier ones, as in a JS object literal. -/
def mkFields (l : List (String × Val)) : Fields :=
  setFields [] l

theorem setFields_nil (base : Fields) : setFields base [] = base := rfl

theorem setFields_cons (base : Fields) (p : String × Val) (rest : List (String × Val)) :
    setFields base (p :: rest) = setFields (alSet base p.1 p.2) rest := rfl

theorem alGet_setFields_of_none (base upd : Fields) (n : String)
    (h : alGet upd n = none) : alGet (setFields base upd) n = alGet base n := by
  induction upd generalizing base with
  | nil => rfl
  | cons p rest ih =>
    obtain ⟨m, w⟩ := p
    rw [alGet_cons] at h
    by_cases hm : m = n
    · simp [hm] at h
    · rw [if_neg hm] at h
      rw [setFields_cons]
      rw [ih _ h, alGet_alSet_ne _ _ _ _ hm]

theorem alGet_setFields_of_some (base upd : Fields) (n : String) (v : Val)
    (hwf : AListWF upd) (h : alGet upd n = some v) :
    alGet (setFields base upd) n = some v := by
  induction upd generalizing base with
  | nil => simp [alGet] at h
  | cons p rest ih =>
    obtain ⟨m, w⟩ := p
    rw [AListWF, List.map_cons, List.nodup_cons] at hwf
    rw [alGet_cons] at h
    by_cases hm : m = n
    · rw [if_pos hm] at h
      injection h with h
      subst h
      subst hm
      rw [setFields_cons]
      have hnone : alGet rest m = none := (alGet_eq_none_iff rest m).mpr hwf.1
      rw [alGet_setFields_of_none _ _ _ hnone, alGet_alSet_self]
    · rw [if_neg hm] at h
      rw [setFields_cons]
      exact ih _ hwf.2 h

theorem AListWF.setFields {base : Fields} (hwf : AListWF base) (upd : List (String × Val)) :
    AListWF (BillSync.setFields base upd) := by
  induction upd generalizing base with
  | nil => exact hwf
  | cons p rest ih => exact ih (hwf.alSet p.1 p.2)

theorem AListWF.mkFields (l : List (String × Val)) : AListWF (BillSync.mkFields l) :=
  AListWF.nil.setFields l

/-! ## Constants and helpers from `common/utils.js`

`common/utils.js` is not part of the sources under verification; the
definitions in this section are modelled from the specification. -/

/-- Modelled from the spec: the `PRIMARY_ORG` constant of `common/utils.js`
(not under src); the spec only shows the shape "Org Bill.com Entity ID" of
the field names derived from it (section 6), so a fixed org token is used.
No claim depends on its exact value. -/
def PRIMARY_ORG : String := "RS"

/-- Modelled from the spec: `getYyyyMmDd` of `common/utils.js` (not under
src); per its name and the spec's date fields it reduces an ISO timestamp
to its YYYY-MM-DD prefix. No claim depends on its exact behavior. -/
def getYyyyMmDd (isoDateTime : String) : String :=
  String.mk (isoDateTime.data.take 10)

/-- Modelled from the spec: `fetchError` of `common/utils.js` (not under
src); section 7 of the spec says an attachment fetch failure is "raised
with HTTP status, filename, and status text". -/
def fetchError (status : Nat) (filename statusText : String) : String :=
  "Error " ++ toString status ++ " fetching " ++ filename ++ ": " ++ statusText

/-- Modelled from the spec: `batchAsync` of `common/utils.js` (not under
src); section 5: outbound writes are chunked into batches of at most `n`
records and each batch is awaited in sequence. -/
def batchAsync {α β : Type} (f : List α → Except String (List β)) :
    List α → Nat → Except String (List β)
  | [], _ => Except.ok []
  | a :: t, 0 => f (a :: t)
  | a :: t, Nat.succ n =>
      (f ((a :: t).take (n + 1))).bind fun hd =>
        (batchAsync f (t.drop n) (n + 1)).map fun tl => hd ++ tl
termination_by l n => l.length
decreasing_by
  simp only [List.length_drop, List.length_cons]
  omega

/-! ## The merchant description pattern

`sync.js` builds

  new RegExp('(?<date>.+)\n(?<name>.+)\n(?<address>.+)\n' +
             '(?<city>.+) | (?<state>.+) | (?<zip>.+)\n(?<description>.+)')

(with the pipes escaped) and calls `String.prototype.match` on line-item
descriptions.  The embedding below reproduces JS regex semantics for this
fixed pattern: `.` matches any character except a newline, `.+` is greedy
with backtracking, and matching is unanchored with the leftmost successful
start position winning.  Since every `.+` is confined to one line, a match
must start at the beginning of the first line of five consecutive lines
whose first, second, third and fifth lines are non-empty and whose fourth
line splits as `city | state | zip` (city greedy, then state greedy). -/

/-- The named capture groups of the merchant pattern. -/
structure MerchantMatch : Type where
  date : String
  name : String
  address : String
  city : String
  state : String
  zip : String
  description : String
deriving DecidableEq, Repr

/-- Splits a character list at newlines (the lines `.+` can range over). -/
def splitLines (l : List Char) : List (List Char) :=
  match l with
  | [] => [[]]
  | c :: cs =>
      if c = '\n' then [] :: splitLines cs
      else
        match splitLines cs with
        | line :: rest => (c :: line) :: rest
        | [] => [[c]]

/-- Whether the three-character separator " | " of the merchant pattern
occurs at position `i` of the line. -/
def pipeSepAt (l : List Char) (i : Nat) : Bool :=
  (l.drop i).take 3 == [' ', '|', ' ']

/-- Whether city length `p` and state end `q` give a decomposition
`city ++ " | " ++ state ++ " | " ++ zip` of the line with all three groups
non-empty. -/
def validCsz (l : List Char) (p q : Nat) : Bool :=
  decide (1 ≤ p) && pipeSepAt l p && decide (p + 4 ≤ q) && pipeSepAt l q &&
    decide (q + 3 < l.length)

/-- Backtracking-greedy split of the fourth line as
`(?<city>.+) \| (?<state>.+) \| (?<zip>.+)`: the regex engine maximizes the
city first, then the state. -/
def splitCsz (l : List Char) : Option (List Char × List Char × List Char) :=
  match (List.range l.length).reverse.find?
      (fun p => (List.range l.length).reverse.any (fun q => validCsz l p q)) with
  | none => none
  | some p =>
      match (List.range l.length).reverse.find? (fun q => validCsz l p q) with
      | none => none
      | some q =>
          some (l.take p, (l.drop (p + 3)).take (q - (p + 3)), l.drop (q + 3))

/-- Scans the line list for the leftmost match of the merchant pattern. -/
def matchLines (lines : List (List Char)) : Option MerchantMatch :=
  match lines with
  | d :: rest =>
      match rest with
      | n :: a :: csz :: ds :: _ =>
          if d ≠ [] ∧ n ≠ [] ∧ a ≠ [] ∧ ds ≠ [] then
            match splitCsz csz with
            | some (c, s, z) =>
                some ⟨String.mk d, String.mk n, String.mk a, String.mk c,
                      String.mk s, String.mk z, String.mk ds⟩
            | none => matchLines rest
          else matchLines rest
      | _ => none
  | [] => none

/-- `description.match(merchantRegex)`, yielding the named groups. -/
def matchMerchant (s : String) : Option MerchantMatch :=
  matchLines (splitLines s.data)

/-! ## The submitter pattern

`sync.js` runs `(bill.description || '').match(/Submitted by (.+) \(/)` and
keeps capture group 1.  Greedy `.+` means the group extends to the last
" (" of the line in which the literal "Submitted by " first occurs with a
valid group after it. -/

/-- Whether " (" occurs at position `i` of the line. -/
def parenSepAt (l : List Char) (i : Nat) : Bool :=
  (l.drop i).take 2 == [' ', '(']

/-- The greedy capture after one occurrence of the literal: the text up to
the last " (" within the current line, when that gives a non-empty group. -/
def submitterGroup (l : List Char) : Option (List Char) :=
  let seg := l.takeWhile (fun c => c ≠ '\n')
  match (List.range seg.length).reverse.find?
      (fun j => decide (1 ≤ j) && parenSepAt seg j) with
  | none => none
  | some j => some (seg.take j)

/-- Scans for the leftmost start position at which the whole submitter
pattern matches. -/
def submitterScan (l : List Char) : Option (List Char) :=
  match l with
  | [] => none
  | _ :: cs =>
      if l.take 13 == "Submitted by ".data then
        match submitterGroup (l.drop 13) with
        | some g => some g
        | none => submitterScan cs
      else submitterScan cs

/-- Capture group 1 of `/Submitted by (.+) \(/` on the bill description,
`none` when the regex does not match. -/
def submitterName (s : String) : Option String :=
  (submitterScan s.data).map String.mk

/-! ## The reconciliation engine (`sync.js` `main`)

The Bill.com API is embedded as the data the engine fetches from it: the
projected entity lists returned by `listActive`, the session id, and the
per-bill `GetDocumentPages` page counts. -/

/-- A Bill.com `Vendor` entity as used by `sync.js` (projected fields). -/
structure RawVendor : Type where
  id : String
  name : String
  address1 : Option String
  addressCity : Option String
  addressState : Option String
  addressZip : Option String
deriving DecidableEq, Repr

/-- A Bill.com entity of which only `id` and `name` are used
(`ChartOfAccount`, `Customer`). -/
structure RawNamed : Type where
  id : String
  name : String
deriving DecidableEq, Repr

/-- The vendor projection built by `main`'s `getEntityData('Vendor', ...)`. -/
structure VendorInfo : Type where
  name : String
  address : Option String
  city : Option String
  state : Option String
  zip : Option String
deriving DecidableEq, Repr

/-- A Bill.com bill line item (fields used by `sync.js`). -/
structure LineItem : Type where
  id : String
  description : String
  createdTime : String
  chartOfAccountId : Option String
  amount : Val
  customerId : Option String
deriving DecidableEq, Repr

/-- A Bill.com bill (fields used by `sync.js`). -/
structure Bill : Type where
  id : String
  vendorId : String
  invoiceDate : String
  invoiceNumber : String
  description : Option String
  approvalStatus : String
  paymentStatus : String
  billLineItems : List LineItem
deriving DecidableEq, Repr

/-- The data `main` obtains from the Bill.com API in one run. -/
structure SyncEnv : Type where
  sessionId : String
  vendorEntities : List RawVendor
  chartOfAccountEntities : List RawNamed
  customerEntities : List RawNamed
  bills : List Bill
  docPages : String → Nat

/-- An Airtable record of the `Bill Reporting` table: record id and fields. -/
structure MirrorRow : Type where
  id : String
  fields : Fields
deriving DecidableEq, Repr

/-- `getEntityData(entity, dataFunc)`: lists active entities and maps
`e.id` to `dataFunc(e)`. -/
def getEntityData {ε β : Type} (entities : List ε) (eid : ε → String) (dataFunc : ε → β) :
    List (String × β) :=
  entities.foldl (fun m e => alSet m (eid e) (dataFunc e)) []

/-- `getNames(entity)`: `getEntityData` projecting each entity to its name. -/
def getNames (entities : List RawNamed) : List (String × String) :=
  getEntityData entities RawNamed.id RawNamed.name

/-- Bill.com Bill Approval Statuses (module constant of `sync.js`). -/
def approvalStatuses : List (String × String) :=
  [("0", "Unassigned"), ("1", "Assigned"), ("4", "Approving"),
   ("3", "Approved"), ("5", "Denied")]

/-- Bill.com Bill Payment Statuses (module constant of `sync.js`). -/
def paymentStatuses : List (String × String) :=
  [("1", "Open"), ("4", "Scheduled"), ("0", "Paid In Full"),
   ("2", "Partial Payment")]

/-- `billComIdFieldName(entity)`. -/
def billComIdFieldName (entity : String) : String :=
  PRIMARY_ORG ++ " Bill.com " ++ entity ++ " ID"

/-- The key field of the `Bill Reporting` table:
`billComIdFieldName('Line Item')`. -/
def primaryBillComId : String := billComIdFieldName "Line Item"

/-- The synthesized multi-page document URL for one bill page. -/
def docUrl (billId sessionId : String) (pageNumber : Nat) : String :=
  "https://api.bill.com/is/BillImageServlet?entityId=" ++ billId ++
    "&sessionId=" ++ sessionId ++ "&pageNumber=" ++ toString pageNumber

/-- The document URLs pushed for a bill (pages 1 to `numPages`). -/
def billDocs (billId sessionId : String) (numPages : Nat) : List String :=
  (List.range numPages).map (fun i => docUrl billId sessionId (i + 1))

/-- The merchant-ish object selected for a line item:
`(item.description.match(merchantRegex) || {}).groups || vendor`, where
`vendor = vendors.get(bill.vendorId) || {}`.  Fields are `none` when the
corresponding JS property is `undefined`. -/
structure MerchantInfo : Type where
  date : Option String
  name : Option String
  address : Option String
  city : Option String
  state : Option String
  zip : Option String
  description : Option String
deriving DecidableEq, Repr

/-- `vendors.get(bill.vendorId) || {}` viewed through the merchant fields
(`date` and `description` are absent on a vendor object). -/
def vendorMerchant (v : Option VendorInfo) : MerchantInfo :=
  match v with
  | some v => ⟨none, some v.name, v.address, v.city, v.state, v.zip, none⟩
  | none => ⟨none, none, none, none, none, none, none⟩

/-- The `itemVendor` local of `sync.js`. -/
def itemVendor (vendors : List (String × VendorInfo)) (bill : Bill) (item : LineItem) :
    MerchantInfo :=
  match matchMerchant item.description with
  | some g =>
      ⟨some g.date, some g.name, some g.address, some g.city, some g.state,
        some g.zip, some g.description⟩
  | none => vendorMerchant (alGet vendors bill.vendorId)

/-- The field object `sync.js` stores in the Changes Map for one line item
(the argument of `changes.set(item.id, {...})`). -/
def itemFields (vendors : List (String × VendorInfo))
    (chartOfAccounts customers : List (String × String))
    (sessionId : String) (numPages : Nat) (bill : Bill) (item : LineItem) : Fields :=
  let mi := itemVendor vendors bill item
  mkFields
    [("Active", Val.bool true),
     (primaryBillComId, Val.str item.id),
     ("Submitted By", optVal (submitterName (jsOr bill.description ""))),
     ("Creation Date", Val.str (getYyyyMmDd item.createdTime)),
     ("Invoice Date", Val.str bill.invoiceDate),
     ("Expense Date", Val.str (jsOr mi.date bill.invoiceDate)),
     (billComIdFieldName "Vendor", Val.str bill.vendorId),
     ("Vendor Name", optVal mi.name),
     ("Vendor Address", optVal mi.address),
     ("Vendor City", optVal mi.city),
     ("Vendor State", optVal mi.state),
     ("Vendor Zip Code", optVal mi.zip),
     ("Description", Val.str (jsOr mi.description item.description)),
     (billComIdFieldName "Chart of Account", optVal item.chartOfAccountId),
     ("Chart of Account", optVal (item.chartOfAccountId.bind (alGet chartOfAccounts))),
     ("Amount", item.amount),
     (billComIdFieldName "Customer", optVal item.customerId),
     ("Customer", optVal (item.customerId.bind (alGet customers))),
     ("Invoice ID", Val.str bill.invoiceNumber),
     ("Supporting Documents", Val.docList (billDocs bill.id sessionId numPages)),
     ("Approval Status", optVal (alGet approvalStatuses bill.approvalStatus)),
     ("Payment Status", optVal (alGet paymentStatuses bill.paymentStatus)),
     (billComIdFieldName "Bill", Val.str bill.id)]

/-- The vendor lookup table built once per run. -/
def vendorsOf (env : SyncEnv) : List (String × VendorInfo) :=
  getEntityData env.vendorEntities RawVendor.id
    (fun v => ⟨v.name, v.address1, v.addressCity, v.addressState, v.addressZip⟩)

/-- The chart-of-accounts name lookup table built once per run. -/
def chartOfAccountsOf (env : SyncEnv) : List (String × String) :=
  getNames env.chartOfAccountEntities

/-- The customer name lookup table built once per run. -/
def customersOf (env : SyncEnv) : List (String × String) :=
  getNames env.customerEntities

/-- The Changes-Map entry computed for one line item of one bill. -/
def itemFieldsOf (env : SyncEnv) (bill : Bill) (item : LineItem) : Fields :=
  itemFields (vendorsOf env) (chartOfAccountsOf env) (customersOf env)
    env.sessionId (env.docPages bill.id) bill item

/-- The Changes Map after the bills loop of `main`: one entry per line item
id, in first-insertion order, later duplicate ids overwriting in place. -/
def buildChanges (env : SyncEnv) : List (String × Fields) :=
  env.bills.foldl
    (fun m bill =>
      bill.billLineItems.foldl
        (fun m item => alSet m item.id (itemFieldsOf env bill item)) m)
    []

/-- `record.get(primaryBillComId)` restricted to the string values that can
hit a Changes-Map key (a missing or non-string value never matches a
string-keyed `Map` entry). -/
def rowKey (r : MirrorRow) : Option String :=
  match alGet r.fields primaryBillComId with
  | some (Val.str s) => some s
  | _ => none

/-- The `{Active: false}` literal staged for rows absent from the ledger. -/
def inactiveFields : Fields :=
  mkFields [("Active", Val.bool false)]

/-- The streaming diff of `main` (the `select` callback): for each mirror
row, stage `changes.get(key) || {Active: false}` and delete the key from
the map; returns the staged `updates` batch and the remaining map. -/
def syncUpdates (rows : List MirrorRow) (changes : List (String × Fields)) :
    List (String × Fields) × List (String × Fields) :=
  match rows with
  | [] => ([], changes)
  | r :: rs =>
      let fs := ((rowKey r).bind (alGet changes)).getD inactiveFields
      let changes' :=
        match rowKey r with
        | some k => alDel changes k
        | none => changes
      let rest := syncUpdates rs changes'
      ((r.id, fs) :: rest.1, rest.2)

/-- The `creates` batch: each remaining Changes-Map entry with the key
field injected (`data[primaryBillComId] = id`). -/
def createFields (remaining : List (String × Fields)) : List Fields :=
  remaining.map (fun p => alSet p.2 primaryBillComId (Val.str p.1))

/-- Applying the batched `update` calls: each `{id, fields}` entry sets the
given fields on the record with that Airtable record id. -/
def applyUpdates (rows : List MirrorRow) (us : List (String × Fields)) : List MirrorRow :=
  us.foldl
    (fun t u =>
      t.map (fun r => if r.id = u.1 then ⟨r.id, setFields r.fields u.2⟩ else r))
    rows

/-- The new records appended by the batched `create` call; Airtable assigns
the fresh record ids, modelled by `fresh`. -/
def mkCreates (fresh : Nat → String) : Nat → List Fields → List MirrorRow
  | _, [] => []
  | i, fs :: rest => ⟨fresh i, fs⟩ :: mkCreates fresh (i + 1) rest

/-- One full reconciliation run of `main` against the `Bill Reporting`
table: stream every existing row, apply the `updates` batch, then append
the `creates` batch. -/
def runSync (env : SyncEnv) (table : List MirrorRow) (fresh : Nat → String) :
    List MirrorRow :=
  let changes := buildChanges env
  let out := syncUpdates table changes
  applyUpdates table out.1 ++ mkCreates fresh 0 (createFields out.2)

/-! ## The Airtable record-store wrapper (`common/airtable.js`)

The underlying `airtable.js` library calls are embedded as an oracle
(`RecordBackend`) whose results each `Base` method wraps with
`catchError`. -/

/-- The results of the raw Airtable library calls a `Base` issues. -/
structure RecordBackend : Type where
  selectAll : String → String → Except String (List MirrorRow)
  updateRecords : String → List (String × Fields) → Except String (List MirrorRow)
  createRecords : String → List Fields → Except String (List MirrorRow)
  findRecord : String → String → Except String MirrorRow

/-- `catchError(promise, querying, table)`: rethrows any failure as
`Error ${querying} records in Airtable Table ${table}: ${err}`. -/
def catchError {α : Type} (promise : Except String α) (querying table : String) :
    Except String α :=
  match promise with
  | Except.ok v => Except.ok v
  | Except.error err =>
      Except.error
        ("Error " ++ querying ++ " records in Airtable Table " ++ table ++ ": " ++ err)

namespace Base

/-- `Base.select(table, view, func)`: list every record of the view, run
`func` on each (`Promise.all`), wrapped with `catchError`. -/
def select {α : Type} (b : RecordBackend) (table view : String)
    (func : MirrorRow → Except String α) : Except String (List α) :=
  catchError ((b.selectAll table view).bind (fun records => records.mapM func))
    "selecting" table

/-- `Base.update(table, updates)`: the batched raw update, wrapped. -/
def update (b : RecordBackend) (table : String) (updates : List (String × Fields)) :
    Except String (List MirrorRow) :=
  catchError (batchAsync (b.updateRecords table) updates 10) "updating" table

/-- `Base.create(table, creates)`: the batched raw create, wrapped. -/
def create (b : RecordBackend) (table : String) (creates : List Fields) :
    Except String (List MirrorRow) :=
  catchError (batchAsync (b.createRecords table) creates 10) "creating" table

/-- `Base.find(table, id, func)`: the raw find followed by `func`, wrapped. -/
def find {α : Type} (b : RecordBackend) (table recordId : String)
    (func : MirrorRow → Except String α) : Except String α :=
  catchError ((b.findRecord table recordId).bind func) "finding" table

/-- The `update(table, [{id, fields}])` calls issued by
`Base.selectAndUpdate(table, view, fieldsFunc)`: one per record whose
`fieldsFunc` result is non-null; rows yielding `null` return early. -/
def selectAndUpdateCalls (records : List MirrorRow)
    (fieldsFunc : MirrorRow → Option Fields) : List (String × Fields) :=
  records.filterMap (fun r => (fieldsFunc r).map (fun fs => (r.id, fs)))

end Base

/-- The cumulative effect of a list of single-record update calls on one
record (each call sets its fields on the record whose id matches). -/
def applyRow (us : List (String × Fields)) (r : MirrorRow) : MirrorRow :=
  us.foldl
    (fun r' u => if r'.id = u.1 then ⟨r'.id, setFields r'.fields u.2⟩ else r')
    r

/-! ## The bill-creation workflow (`create_bill.js`) -/

/-- The characters `encodeURIComponent` leaves unescaped:
`A-Z a-z 0-9 - _ . ! ~ * ' ( )`. -/
def uriUnreserved (c : Char) : Bool :=
  (65 ≤ c.toNat && c.toNat ≤ 90) || (97 ≤ c.toNat && c.toNat ≤ 122) ||
    (48 ≤ c.toNat && c.toNat ≤ 57) ||
    c ∈ ['-', '_', '.', '!', '~', '*', '\'', '(', ')']

/-- The UTF-8 bytes of a code point (what `encodeURIComponent`
percent-encodes, surrogate pairs combined). -/
def utf8Bytes (c : Char) : List Nat :=
  let n := c.toNat
  if n < 128 then [n]
  else if n < 2048 then [192 + n / 64, 128 + n % 64]
  else if n < 65536 then [224 + n / 4096, 128 + (n / 64) % 64, 128 + n % 64]
  else [240 + n / 262144, 128 + (n / 4096) % 64, 128 + (n / 64) % 64, 128 + n % 64]

/-- The uppercase hexadecimal digit for `n < 16`. -/
def hexDigit (n : Nat) : Char :=
  "0123456789ABCDEF".data.getD n 'F'

/-- `%HH` for one byte. -/
def percentByte (b : Nat) : List Char :=
  ['%', hexDigit (b / 16), hexDigit (b % 16)]

/-- The encoding of one character. -/
def encodeChar (c : Char) : List Char :=
  if uriUnreserved c then [c] else (utf8Bytes c).foldr (fun b acc => percentByte b ++ acc) []

/-- JS `encodeURIComponent`. -/
def encodeURIComponent (s : String) : String :=
  String.mk (s.data.foldr (fun c acc => encodeChar c ++ acc) [])

/-- `${x}` interpolation of a possibly-undefined Airtable field value. -/
def jsTemplate (o : Option String) : String :=
  match o with
  | some s => s
  | none => "undefined"

/-- A Check Request Line Item row (fields used by `create_bill.js`). -/
structure CheckRequestItem : Type where
  itemExpenseDate : Option String
  description : Option String
  merchantName : Option String
  merchantAddress : Option String
  merchantCity : Option String
  merchantState : Option String
  merchantZip : Option String
deriving DecidableEq, Repr

/-- The `description` of the Bill.com line item built for a Check Request
Line Item: the free-text description when no expense date is present,
otherwise the `encodeURIComponent`-encoded packed merchant string with
" & "-separated city, state and zip. -/
def lineItemDescription (item : CheckRequestItem) : Option String :=
  match item.itemExpenseDate with
  | none => item.description
  | some date =>
      some
        (encodeURIComponent
          (date ++ "\n" ++ jsTemplate item.merchantName ++ "\n" ++
            jsTemplate item.merchantAddress ++ "\n" ++
            jsTemplate item.merchantCity ++ " & " ++
            jsTemplate item.merchantState ++ " & " ++
            jsTemplate item.merchantZip ++ "\n" ++
            jsTemplate item.description))

/-- JS `s.substring(a, b)`: clamps both indices to the length and swaps
them when out of order. -/
def jsSubstring (s : String) (a b : Nat) : String :=
  String.mk ((s.data.take (max a b)).drop (min a b))

/-- The Bill.com invoice id of a Check Request:
`get('Vendor Invoice ID') || requester.substring(0, 15) + " - " +
recordId.substring(3, 6)`. -/
def invoiceId (vendorInvoiceId : Option String) (requester recordId : String) : String :=
  jsOr vendorInvoiceId (jsSubstring requester 0 15 ++ " - " ++ jsSubstring recordId 3 6)

/-- One supporting document attachment of a Check Request. -/
structure Doc : Type where
  url : String
  filename : String
deriving DecidableEq, Repr

/-- An HTTP fetch response (status code and status text). -/
structure FetchResponse : Type where
  status : Nat
  statusText : String
deriving DecidableEq, Repr

/-- `response.ok`: status in the 2xx range. -/
def responseOk (resp : FetchResponse) : Bool :=
  200 ≤ resp.status && resp.status ≤ 299

/-- The supporting-documents loop of `create_bill.js`: fetch each document
(raising `fetchError(status, filename, statusText)` on a non-2xx
response), then upload it against the new bill. -/
def uploadDocs (fetch : String → FetchResponse)
    (upload : String → String → Except String Unit) (newBillId : String) :
    List Doc → Except String Unit
  | [] => Except.ok ()
  | d :: ds =>
      let resp := fetch d.url
      if responseOk resp then
        match upload newBillId d.filename with
        | Except.ok _ => uploadDocs fetch upload newBillId ds
        | Except.error e => Except.error e
      else Except.error (fetchError resp.status d.filename resp.statusText)

/-- The confirmation fields returned for a processed Check Request row
(`Active`, the invoice id, and the new ledger bill id).  The
`PRIMARY_ORG_BILL_COM_ID` constant lives in `common/airtable.js` of the
version `create_bill.js` imports; modelled from the spec as the primary
org's Bill.com ID field name. -/
def checkRequestConfirmation (invoice newBillId : String) : Fields :=
  mkFields
    [("Active", Val.bool true),
     ("Vendor Invoice ID", Val.str invoice),
     (PRIMARY_ORG ++ " Bill.com ID", Val.str newBillId)]

/-- The tail of the per-row workflow: upload every supporting document and
only then return the confirmation fields to be written back; any document
failure aborts the row with that error. -/
def docsAndConfirm (fetch : String → FetchResponse)
    (upload : String → String → Except String Unit) (invoice newBillId : String)
    (docs : List Doc) : Except String Fields :=
  match uploadDocs fetch upload newBillId docs with
  | Except.ok _ => Except.ok (checkRequestConfirmation invoice newBillId)
  | Except.error e => Except.error e

/-! ## Helper lemmas -/

theorem hexDigit_ne_newline (n : Nat) : hexDigit n ≠ '\n' := by
  unfold hexDigit
  rcases Nat.lt_or_ge n 16 with h | h
  · interval_cases n <;> decide
  · rw [List.getD_eq_default]
    · decide
    · simpa using h

theorem newline_not_mem_percentByte (b : Nat) : '\n' ∉ percentByte b := by
  unfold percentByte
  intro h
  rcases List.mem_cons.mp h with h1 | h1
  · exact absurd h1.symm (by decide)
  · rcases List.mem_cons.mp h1 with h2 | h2
    · exact hexDigit_ne_newline _ h2.symm
    · rcases List.mem_cons.mp h2 with h3 | h3
      · exact hexDigit_ne_newline _ h3.symm
      · simp at h3

theorem newline_not_mem_encodeChar (c : Char) : '\n' ∉ encodeChar c := by
  unfold encodeChar
  by_cases hc : uriUnreserved c
  · rw [if_pos hc]
    intro h
    rcases List.mem_cons.mp h with h1 | h1
    · subst h1
      exact absurd hc (by decide)
    · exact absurd h1 (List.not_mem_nil _)
  · rw [if_neg hc]
    generalize utf8Bytes c = bs
    induction bs with
    | nil => simp
    | cons b rest ih =>
        intro h
        rw [List.foldr_cons] at h
        rcases List.mem_append.mp h with h1 | h1
        · exact newline_not_mem_percentByte b h1
        · exact ih h1

theorem newline_not_mem_encode (s : String) : '\n' ∉ (encodeURIComponent s).data := by
  show '\n' ∉ (String.mk (s.data.foldr (fun c acc => encodeChar c ++ acc) [])).data
  induction s.data with
  | nil => simp
  | cons c cs ih =>
      intro h
      rw [List.foldr_cons] at h
      rcases List.mem_append.mp h with h1 | h1
      · exact newline_not_mem_encodeChar c h1
      · exact ih h1

theorem splitLines_of_no_newline (l : List Char) (h : '\n' ∉ l) : splitLines l = [l] := by
  induction l with
  | nil => rfl
  | cons c cs ih =>
      have hc : c ≠ '\n' := fun hc => h (hc ▸ List.mem_cons_self c cs)
      have hcs : '\n' ∉ cs := fun hm => h (List.mem_cons_of_mem c hm)
      rw [splitLines, if_neg hc, ih hcs]

theorem matchLines_single (l : List Char) : matchLines [l] = none := rfl

theorem matchMerchant_no_newline (s : String) (h : '\n' ∉ s.data) :
    matchMerchant s = none := by
  rw [matchMerchant, splitLines_of_no_newline s.data h, matchLines_single]

theorem applyRow_nil (r : MirrorRow) : applyRow [] r = r := rfl

theorem applyRow_cons (u : String × Fields) (us : List (String × Fields)) (r : MirrorRow) :
    applyRow (u :: us) r =
      applyRow us (if r.id = u.1 then ⟨r.id, setFields r.fields u.2⟩ else r) := rfl

theorem applyRow_id (us : List (String × Fields)) (r : MirrorRow) :
    (applyRow us r).id = r.id := by
  induction us generalizing r with
  | nil => rfl
  | cons u us ih =>
      rw [applyRow_cons]
      by_cases h : r.id = u.1
      · rw [if_pos h, ih]
      · rw [if_neg h, ih]

theorem applyRow_nomatch (us : List (String × Fields)) (r : MirrorRow)
    (h : ∀ u ∈ us, u.1 ≠ r.id) : applyRow us r = r := by
  induction us with
  | nil => rfl
  | cons u us ih =>
      rw [applyRow_cons, if_neg (fun hh => h u (List.mem_cons_self u us) hh.symm)]
      exact ih (fun u' hu' => h u' (List.mem_cons_of_mem u hu'))

theorem applyRow_append (a b : List (String × Fields)) (r : MirrorRow) :
    applyRow (a ++ b) r = applyRow b (applyRow a r) := by
  unfold applyRow
  rw [List.foldl_append]

theorem applyRow_single (us₁ us₂ : List (String × Fields)) (r : MirrorRow) (fs : Fields)
    (h₁ : ∀ u ∈ us₁, u.1 ≠ r.id) (h₂ : ∀ u ∈ us₂, u.1 ≠ r.id) :
    applyRow (us₁ ++ (r.id, fs) :: us₂) r = ⟨r.id, setFields r.fields fs⟩ := by
  rw [applyRow_append, applyRow_nomatch us₁ r h₁, applyRow_cons, if_pos rfl]
  exact applyRow_nomatch us₂ _ (fun u hu => h₂ u hu)

theorem applyUpdates_eq_map (rows : List MirrorRow) (us : List (String × Fields)) :
    applyUpdates rows us = rows.map (applyRow us) := by
  induction us generalizing rows with
  | nil =>
      show rows = rows.map (applyRow [])
      exact (List.map_id rows).symm
  | cons u us ih =>
      show applyUpdates (rows.map _) us = _
      rw [ih, List.map_map]
      rfl

theorem syncUpdates_nil (changes : List (String × Fields)) :
    syncUpdates [] changes = ([], changes) := rfl

theorem syncUpdates_cons (r : MirrorRow) (rs : List MirrorRow)
    (changes : List (String × Fields)) :
    syncUpdates (r :: rs) changes =
      ((r.id, ((rowKey r).bind (alGet changes)).getD inactiveFields) ::
          (syncUpdates rs
            (match rowKey r with
             | some k => alDel changes k
             | none => changes)).1,
        (syncUpdates rs
          (match rowKey r with
           | some k => alDel changes k
           | none => changes)).2) := rfl

/-- The Changes Map the diff carries after processing a prefix of rows. -/
def changesAfter (rows : List MirrorRow) (changes : List (String × Fields)) :
    List (String × Fields) :=
  (syncUpdates rows changes).2

theorem syncUpdates_fst_length (rows : List MirrorRow) (changes : List (String × Fields)) :
    (syncUpdates rows changes).1.length = rows.length := by
  induction rows generalizing changes with
  | nil => rfl
  | cons r rs ih =>
      rw [syncUpdates_cons]
      simp [ih]

theorem syncUpdates_append (xs ys : List MirrorRow) (changes : List (String × Fields)) :
    syncUpdates (xs ++ ys) changes =
      ((syncUpdates xs changes).1 ++ (syncUpdates ys (changesAfter xs changes)).1,
        (syncUpdates ys (changesAfter xs changes)).2) := by
  induction xs generalizing changes with
  | nil => simp [changesAfter, syncUpdates_nil]
  | cons r rs ih =>
      simp only [List.cons_append, syncUpdates_cons, changesAfter] at ih ⊢
      rw [ih]

/-- The fields the diff stages for a row against a given state of the
Changes Map: the map entry for the row's key, or `{Active: false}`. -/
def updFor (changes : List (String × Fields)) (r : MirrorRow) : Fields :=
  ((rowKey r).bind (alGet changes)).getD inactiveFields

theorem changesAfter_nil (changes : List (String × Fields)) :
    changesAfter [] changes = changes := rfl

theorem changesAfter_cons (r : MirrorRow) (rs : List MirrorRow)
    (changes : List (String × Fields)) :
    changesAfter (r :: rs) changes =
      changesAfter rs
        (match rowKey r with
         | some k => alDel changes k
         | none => changes) := rfl

theorem syncUpdates_fst_cons (r : MirrorRow) (rs : List MirrorRow)
    (changes : List (String × Fields)) :
    (syncUpdates (r :: rs) changes).1 =
      (r.id, updFor changes r) ::
        (syncUpdates rs
          (match rowKey r with
           | some k => alDel changes k
           | none => changes)).1 := rfl

theorem changesAfter_wf (rows : List MirrorRow) (changes : List (String × Fields))
    (hwf : AListWF changes) : AListWF (changesAfter rows changes) := by
  induction rows generalizing changes with
  | nil => exact hwf
  | cons r rs ih =>
      rw [changesAfter_cons]
      cases hk : rowKey r with
      | some k => exact ih _ (hwf.alDel k)
      | none => exact ih _ hwf

theorem changesAfter_none (rows : List MirrorRow) (changes : List (String × Fields))
    (k : String) (h : alGet changes k = none) :
    alGet (changesAfter rows changes) k = none := by
  induction rows generalizing changes with
  | nil => exact h
  | cons r rs ih =>
      rw [changesAfter_cons]
      cases hk : rowKey r with
      | some k0 => exact ih _ (alGet_alDel_none _ _ _ h)
      | none => exact ih _ h

theorem changesAfter_preserve (rows : List MirrorRow) (changes : List (String × Fields))
    (k : String) (h : ∀ r ∈ rows, rowKey r ≠ some k) :
    alGet (changesAfter rows changes) k = alGet changes k := by
  induction rows generalizing changes with
  | nil => rfl
  | cons r rs ih =>
      rw [changesAfter_cons]
      have htail : ∀ r' ∈ rs, rowKey r' ≠ some k :=
        fun r' hr' => h r' (List.mem_cons_of_mem r hr')
      cases hk : rowKey r with
      | some k0 =>
          have hne : k ≠ k0 := by
            rintro rfl
            exact h r (List.mem_cons_self r rs) hk
          rw [ih _ htail, alGet_alDel_ne _ _ _ hne]
      | none => exact ih _ htail

theorem changesAfter_hit (rows : List MirrorRow) (changes : List (String × Fields))
    (k : String) (r : MirrorRow) (hwf : AListWF changes) (hr : r ∈ rows)
    (hk : rowKey r = some k) :
    alGet (changesAfter rows changes) k = none := by
  induction rows generalizing changes with
  | nil => exact absurd hr (List.not_mem_nil r)
  | cons r0 rs ih =>
      rw [changesAfter_cons]
      rcases List.mem_cons.mp hr with h1 | h1
      · subst h1
        rw [hk]
        exact changesAfter_none rs _ k (alGet_alDel_self changes k hwf)
      · cases hk0 : rowKey r0 with
        | some k0 => exact ih _ (hwf.alDel k0) h1
        | none => exact ih _ hwf h1

theorem syncUpdates_fst_map (rows : List MirrorRow) (changes : List (String × Fields))
    (hKeys : (rows.filterMap rowKey).Nodup) :
    (syncUpdates rows changes).1 = rows.map (fun r => (r.id, updFor changes r)) := by
  induction rows generalizing changes with
  | nil => rfl
  | cons r rs ih =>
      rw [syncUpdates_fst_cons, List.map_cons]
      cases hk : rowKey r with
      | none =>
          simp only [List.filterMap_cons, hk] at hKeys
          rw [ih changes hKeys]
      | some k =>
          simp only [List.filterMap_cons, hk, List.nodup_cons] at hKeys
          rw [ih _ hKeys.2]
          congr 1
          apply List.map_congr_left
          intro r' hr'
          show (r'.id, updFor (alDel changes k) r') = (r'.id, updFor changes r')
          rw [updFor, updFor]
          cases hk' : rowKey r' with
          | none => rfl
          | some k' =>
              have hne : k' ≠ k := by
                rintro rfl
                exact hKeys.1 (List.mem_filterMap.mpr ⟨r', hr', hk'⟩)
              rw [Option.some_bind, Option.some_bind, alGet_alDel_ne _ _ _ hne]

theorem syncUpdates_AF_zip (rows : List MirrorRow) (changes : List (String × Fields))
    (k : String) (h : alGet changes k = none) :
    ∀ p ∈ (syncUpdates rows changes).1.zip rows,
      rowKey p.2 = some k → p.1 = (p.2.id, inactiveFields) := by
  induction rows generalizing changes with
  | nil =>
      intro p hp
      rw [syncUpdates_nil] at hp
      simp at hp
  | cons r rs ih =>
      intro p hp hkey
      rw [syncUpdates_fst_cons, List.zip_cons_cons] at hp
      rcases List.mem_cons.mp hp with h1 | h1
      · subst h1
        simp only at hkey ⊢
        simp [updFor, hkey, h]
      · cases hk0 : rowKey r with
        | some k0 =>
            simp only [hk0] at h1
            exact ih (alDel changes k0) (alGet_alDel_none _ _ _ h) p h1 hkey
        | none =>
            simp only [hk0] at h1
            exact ih changes h p h1 hkey

theorem syncUpdates_fst_ids (rows : List MirrorRow) (changes : List (String × Fields)) :
    (syncUpdates rows changes).1.map Prod.fst = rows.map MirrorRow.id := by
  induction rows generalizing changes with
  | nil => rfl
  | cons r rs ih =>
      rw [syncUpdates_fst_cons]
      simp only [List.map_cons]
      rw [ih]

theorem foldl_alSet_pred {β γ : Type} {P : String → β → Prop}
    (g : γ → String) (f : γ → β) (l : List γ) (m : List (String × β))
    (hm : ∀ k v, alGet m k = some v → P k v)
    (hl : ∀ x ∈ l, P (g x) (f x)) :
    ∀ k v, alGet (l.foldl (fun m x => alSet m (g x) (f x)) m) k = some v → P k v := by
  induction l generalizing m with
  | nil => exact hm
  | cons x xs ih =>
      rw [List.foldl_cons]
      refine ih _ ?_ (fun y hy => hl y (List.mem_cons_of_mem x hy))
      intro k v hk
      rw [alGet_alSet] at hk
      by_cases he : g x = k
      · rw [if_pos he] at hk
        injection hk with hk
        subst hk
        exact he ▸ hl x (List.mem_cons_self x xs)
      · rw [if_neg he] at hk
        exact hm _ _ hk

theorem foldl_alSet_wf {β γ : Type} (g : γ → String) (f : γ → β) (l : List γ)
    (m : List (String × β)) (hm : AListWF m) :
    AListWF (l.foldl (fun m x => alSet m (g x) (f x)) m) := by
  induction l generalizing m with
  | nil => exact hm
  | cons x xs ih =>
      rw [List.foldl_cons]
      exact ih _ (hm.alSet (g x) (f x))

theorem buildChanges_pred (env : SyncEnv) {P : String → Fields → Prop}
    (hP : ∀ bill ∈ env.bills, ∀ item ∈ bill.billLineItems,
      P item.id (itemFieldsOf env bill item)) :
    ∀ k fs, alGet (buildChanges env) k = some fs → P k fs := by
  have main : ∀ (bs : List Bill),
      (∀ b ∈ bs, ∀ item ∈ b.billLineItems, P item.id (itemFieldsOf env b item)) →
      ∀ (m : List (String × Fields)), (∀ k fs, alGet m k = some fs → P k fs) →
      ∀ k fs,
        alGet
          (bs.foldl
            (fun m bill =>
              bill.billLineItems.foldl
                (fun m item => alSet m item.id (itemFieldsOf env bill item)) m)
            m) k = some fs → P k fs := by
    intro bs
    induction bs with
    | nil => exact fun _ m hm => hm
    | cons b rest ih =>
        intro hbs m hm
        rw [List.foldl_cons]
        exact ih (fun b' hb' => hbs b' (List.mem_cons_of_mem b hb')) _
          (foldl_alSet_pred LineItem.id (itemFieldsOf env b) b.billLineItems m hm
            (fun it hit => hbs b (List.mem_cons_self b rest) it hit))
  exact main env.bills hP [] (fun k fs h => by rw [alGet_nil] at h; cases h)

theorem buildChanges_wf (env : SyncEnv) : AListWF (buildChanges env) := by
  have main : ∀ (bs : List Bill) (m : List (String × Fields)), AListWF m →
      AListWF
        (bs.foldl
          (fun m bill =>
            bill.billLineItems.foldl
              (fun m item => alSet m item.id (itemFieldsOf env bill item)) m)
          m) := by
    intro bs
    induction bs with
    | nil => exact fun m hm => hm
    | cons b rest ih =>
        intro m hm
        rw [List.foldl_cons]
        exact ih _ (foldl_alSet_wf LineItem.id (itemFieldsOf env b) b.billLineItems m hm)
  exact main env.bills [] AListWF.nil

theorem itemFields_wf (vendors : List (String × VendorInfo))
    (coa cust : List (String × String)) (sid : String) (np : Nat)
    (bill : Bill) (item : LineItem) :
    AListWF (itemFields vendors coa cust sid np bill item) :=
  AListWF.mkFields _

theorem alGet_append {β : Type} (m₁ m₂ : List (String × β)) (k : String) :
    alGet (m₁ ++ m₂) k =
      match alGet m₁ k with
      | some v => some v
      | none => alGet m₂ k := by
  induction m₁ with
  | nil => rfl
  | cons p rest ih =>
      obtain ⟨k0, v0⟩ := p
      rw [List.cons_append, alGet_cons, alGet_cons]
      by_cases h0 : k0 = k
      · rw [if_pos h0, if_pos h0]
      · rw [if_neg h0, if_neg h0, ih]

theorem alSet_append_of_none {β : Type} (m : List (String × β)) (k : String) (v : β)
    (h : alGet m k = none) : alSet m k v = m ++ [(k, v)] := by
  induction m with
  | nil => rfl
  | cons p rest ih =>
      obtain ⟨k0, v0⟩ := p
      rw [alGet_cons] at h
      by_cases h0 : k0 = k
      · simp [h0] at h
      · rw [if_neg h0] at h
        show alSet ((k0, v0) :: rest) k v = (k0, v0) :: (rest ++ [(k, v)])
        rw [show alSet ((k0, v0) :: rest) k v =
          if k0 = k then (k, v) :: rest else (k0, v0) :: alSet rest k v from rfl]
        rw [if_neg h0, ih h]

theorem setFields_append (base l : List (String × Val))
    (hnodup : (l.map Prod.fst).Nodup) (hdisj : ∀ p ∈ l, alGet base p.1 = none) :
    setFields base l = base ++ l := by
  induction l generalizing base with
  | nil => simp [setFields_nil]
  | cons p rest ih =>
      rw [List.map_cons, List.nodup_cons] at hnodup
      rw [setFields_cons,
        alSet_append_of_none _ _ _ (hdisj p (List.mem_cons_self p rest)), ih _ hnodup.2]
      · rw [List.append_assoc]
        rfl
      · intro q hq
        rw [alGet_append]
        rw [hdisj q (List.mem_cons_of_mem p hq)]
        have hne : p.1 ≠ q.1 := by
          intro hh
          exact hnodup.1 (hh ▸ List.mem_map.mpr ⟨q, hq, rfl⟩)
        rw [alGet_cons, if_neg hne, alGet_nil]

theorem mkFields_eq_self (l : List (String × Val)) (hnodup : (l.map Prod.fst).Nodup) :
    mkFields l = l := by
  rw [mkFields, setFields_append [] l hnodup (fun p _ => rfl), List.nil_append]

/-- The Changes-Map entry as an explicit association list (its 23 field
names are pairwise distinct, so the JS object literal is the list itself). -/
theorem itemFields_eq (vendors : List (String × VendorInfo))
    (coa cust : List (String × String)) (sid : String) (np : Nat)
    (bill : Bill) (item : LineItem) :
    itemFields vendors coa cust sid np bill item =
      (let mi := itemVendor vendors bill item
      [("Active", Val.bool true),
       (primaryBillComId, Val.str item.id),
       ("Submitted By", optVal (submitterName (jsOr bill.description ""))),
       ("Creation Date", Val.str (getYyyyMmDd item.createdTime)),
       ("Invoice Date", Val.str bill.invoiceDate),
       ("Expense Date", Val.str (jsOr mi.date bill.invoiceDate)),
       (billComIdFieldName "Vendor", Val.str bill.vendorId),
       ("Vendor Name", optVal mi.name),
       ("Vendor Address", optVal mi.address),
       ("Vendor City", optVal mi.city),
       ("Vendor State", optVal mi.state),
       ("Vendor Zip Code", optVal mi.zip),
       ("Description", Val.str (jsOr mi.description item.description)),
       (billComIdFieldName "Chart of Account", optVal item.chartOfAccountId),
       ("Chart of Account", optVal (item.chartOfAccountId.bind (alGet coa))),
       ("Amount", item.amount),
       (billComIdFieldName "Customer", optVal item.customerId),
       ("Customer", optVal (item.customerId.bind (alGet cust))),
       ("Invoice ID", Val.str bill.invoiceNumber),
       ("Supporting Documents", Val.docList (billDocs bill.id sid np)),
       ("Approval Status", optVal (alGet approvalStatuses bill.approvalStatus)),
       ("Payment Status", optVal (alGet paymentStatuses bill.paymentStatus)),
       (billComIdFieldName "Bill", Val.str bill.id)]) := by
  rw [itemFields]
  apply mkFields_eq_self
  simp only [List.map_cons, List.map_nil]
  decide

theorem itemFields_active (vendors : List (String × VendorInfo))
    (coa cust : List (String × String)) (sid : String) (np : Nat)
    (bill : Bill) (item : LineItem) :
    alGet (itemFields vendors coa cust sid np bill item) "Active" =
      some (Val.bool true) := by
  rw [itemFields_eq]
  rfl

theorem itemFields_key (vendors : List (String × VendorInfo))
    (coa cust : List (String × String)) (sid : String) (np : Nat)
    (bill : Bill) (item : LineItem) :
    alGet (itemFields vendors coa cust sid np bill item) primaryBillComId =
      some (Val.str item.id) := by
  rw [itemFields_eq]
  rw [show primaryBillComId = "RS Bill.com Line Item ID" from rfl]
  rfl

/-- The invariant every Changes-Map value enjoys by construction: it is a
well-formed field object whose `Active` field is `true` and whose key field
carries the map key itself. -/
def ChangesOk (changes : List (String × Fields)) : Prop :=
  ∀ k fs, alGet changes k = some fs →
    alGet fs "Active" = some (Val.bool true) ∧
    alGet fs primaryBillComId = some (Val.str k) ∧ AListWF fs

theorem buildChanges_ok (env : SyncEnv) : ChangesOk (buildChanges env) := by
  intro k fs h
  refine buildChanges_pred env (P := fun k fs =>
    alGet fs "Active" = some (Val.bool true) ∧
    alGet fs primaryBillComId = some (Val.str k) ∧ AListWF fs) ?_ k fs h
  intro bill _ item _
  exact ⟨itemFields_active _ _ _ _ _ _ _, itemFields_key _ _ _ _ _ _ _,
    itemFields_wf _ _ _ _ _ _ _⟩

/-- The mirror-row key as a function of the fields alone. -/
def fieldsKey (fs : Fields) : Option String :=
  match alGet fs primaryBillComId with
  | some (Val.str s) => some s
  | _ => none

theorem rowKey_eq_fieldsKey (r : MirrorRow) : rowKey r = fieldsKey r.fields := rfl

theorem fieldsKey_create (fs : Fields) (k : String) :
    fieldsKey (alSet fs primaryBillComId (Val.str k)) = some k := by
  rw [fieldsKey, alGet_alSet_self]

theorem alGet_inactive_key : alGet inactiveFields primaryBillComId = none := by decide

theorem alGet_inactive_active : alGet inactiveFields "Active" = some (Val.bool false) := by
  decide

theorem inactive_other (n : String) (h : n ≠ "Active") : alGet inactiveFields n = none := by
  rw [show inactiveFields = [("Active", Val.bool false)] from rfl, alGet_cons, if_neg ?_,
    alGet_nil]
  exact fun hh => h hh.symm

theorem rowKey_setFields_updFor (changes : List (String × Fields))
    (hok : ChangesOk changes) (r : MirrorRow) :
    rowKey ⟨r.id, setFields r.fields (updFor changes r)⟩ = rowKey r := by
  cases hk : rowKey r with
  | none =>
      rw [rowKey_eq_fieldsKey, updFor, hk]
      show fieldsKey (setFields r.fields inactiveFields) = none
      rw [fieldsKey, alGet_setFields_of_none _ _ _ alGet_inactive_key]
      rw [rowKey_eq_fieldsKey, fieldsKey] at hk
      exact hk
  | some k =>
      cases hc : alGet changes k with
      | none =>
          rw [rowKey_eq_fieldsKey, updFor, hk, Option.some_bind, hc]
          show fieldsKey (setFields r.fields inactiveFields) = some k
          rw [fieldsKey, alGet_setFields_of_none _ _ _ alGet_inactive_key]
          rw [rowKey_eq_fieldsKey, fieldsKey] at hk
          exact hk
      | some fs =>
          obtain ⟨_, hkey, hwf⟩ := hok k fs hc
          rw [rowKey_eq_fieldsKey, updFor, hk, Option.some_bind, hc]
          show fieldsKey (setFields r.fields fs) = some k
          rw [fieldsKey, alGet_setFields_of_some _ _ _ _ hwf hkey]

theorem applyUpdates_aligned (rows : List MirrorRow) (g : MirrorRow → Fields)
    (hIds : (rows.map MirrorRow.id).Nodup) :
    applyUpdates rows (rows.map (fun r => (r.id, g r))) =
      rows.map (fun r => ⟨r.id, setFields r.fields (g r)⟩) := by
  rw [applyUpdates_eq_map]
  apply List.map_congr_left
  intro r hr
  obtain ⟨t₁, t₂, rfl⟩ := List.append_of_mem hr
  rw [List.map_append, List.map_cons] at hIds ⊢
  rw [List.nodup_append] at hIds
  obtain ⟨h₁, h₂, hdisj⟩ := hIds
  rw [List.nodup_cons] at h₂
  have hid₁ : ∀ x ∈ t₁, x.id ≠ r.id := by
    intro x hx hh
    exact hdisj (List.mem_map.mpr ⟨x, hx, rfl⟩) (hh ▸ List.mem_cons_self r.id _)
  have hid₂ : ∀ x ∈ t₂, x.id ≠ r.id := by
    intro x hx hh
    exact h₂.1 (hh ▸ List.mem_map.mpr ⟨x, hx, rfl⟩)
  apply applyRow_single
  · intro u hu
    obtain ⟨x, hx, rfl⟩ := List.mem_map.mp hu
    exact hid₁ x hx
  · intro u hu
    obtain ⟨x, hx, rfl⟩ := List.mem_map.mp hu
    exact hid₂ x hx

/-- The characterization of one reconciliation run when mirror keys and
record ids are unique: every existing row gets its `updFor` fields set in
place, and one new row is appended per remaining Changes-Map entry. -/
theorem runSync_eq (env : SyncEnv) (table : List MirrorRow) (fresh : Nat → String)
    (hKeys : (table.filterMap rowKey).Nodup)
    (hIds : (table.map MirrorRow.id).Nodup) :
    runSync env table fresh =
      table.map (fun r => ⟨r.id, setFields r.fields (updFor (buildChanges env) r)⟩) ++
        mkCreates fresh 0 (createFields (changesAfter table (buildChanges env))) := by
  show applyUpdates table (syncUpdates table (buildChanges env)).1 ++
      mkCreates fresh 0 (createFields (syncUpdates table (buildChanges env)).2) = _
  rw [syncUpdates_fst_map _ _ hKeys, applyUpdates_aligned _ _ hIds]
  rfl

theorem mem_mkCreates_fields (fresh : Nat → String) (i : Nat) (cs : List Fields) :
    ∀ r ∈ mkCreates fresh i cs, r.fields ∈ cs := by
  induction cs generalizing i with
  | nil => intro r hr; cases hr
  | cons fs rest ih =>
      intro r hr
      rcases List.mem_cons.mp hr with h1 | h1
      · subst h1
        exact List.mem_cons_self _ _
      · exact List.mem_cons_of_mem _ (ih (i + 1) r h1)

theorem mkCreates_exists_of_mem (fresh : Nat → String) (i : Nat) (cs : List Fields) :
    ∀ fs ∈ cs, ∃ r ∈ mkCreates fresh i cs, r.fields = fs := by
  induction cs generalizing i with
  | nil => intro fs hfs; cases hfs
  | cons f rest ih =>
      intro fs hfs
      rcases List.mem_cons.mp hfs with h1 | h1
      · subst h1
        exact ⟨⟨fresh i, fs⟩, List.mem_cons_self _ _, rfl⟩
      · obtain ⟨r, hr, hrf⟩ := ih (i + 1) fs h1
        exact ⟨r, List.mem_cons_of_mem _ hr, hrf⟩

theorem countP_mkCreates (fresh : Nat → String) (i : Nat) (cs : List Fields)
    (q : Fields → Bool) :
    (mkCreates fresh i cs).countP (fun r => q r.fields) = cs.countP q := by
  induction cs generalizing i with
  | nil => rfl
  | cons fs rest ih =>
      show List.countP _ (⟨fresh i, fs⟩ :: mkCreates fresh (i + 1) rest) = _
      rw [List.countP_cons, List.countP_cons, ih (i + 1)]

theorem countP_rowKey_eq_count (rows : List MirrorRow) (k : String) :
    rows.countP (fun r => decide (rowKey r = some k)) = (rows.filterMap rowKey).count k := by
  induction rows with
  | nil => rfl
  | cons r rs ih =>
      rw [List.countP_cons, List.filterMap_cons]
      cases hk : rowKey r with
      | none =>
          simp only [hk]
          rw [ih]
          simp
      | some k' =>
          simp only [hk]
          rw [List.count_cons, ih]
          by_cases he : k' = k
          · simp [he]
          · simp [he, Ne.symm he]

theorem count_map_fst {β : Type} (m : List (String × β)) (k : String) :
    (m.map Prod.fst).count k = m.countP (fun p => decide (p.1 = k)) := by
  induction m with
  | nil => rfl
  | cons p rest ih =>
      rw [List.map_cons, List.count_cons, List.countP_cons, ih]
      by_cases he : p.1 = k <;> simp [he]

theorem alGet_some_mem_keys {β : Type} {m : List (String × β)} {k : String} {v : β}
    (h : alGet m k = some v) : k ∈ m.map Prod.fst := by
  by_contra hk
  rw [← alGet_eq_none_iff] at hk
  rw [hk] at h
  cases h

/-! ## Claim theorems -/

theorem jsSubstring_length_le (s : String) (a b : Nat) :
    (jsSubstring s a b).length ≤ max a b - min a b := by
  show ((s.data.take (max a b)).drop (min a b)).length ≤ max a b - min a b
  rw [List.length_drop, List.length_take]
  omega

/-- C6, counterexample: with no vendor-supplied invoice id, requester
"Alexandria Bartholomew" and record id "recAB1234567", the synthesized
invoice id is "Alexandria Bart - AB1" (15 characters of the name are
"Alexandria Bart" and characters [3:6) of the id are "AB1"), not the
"Alexandria Barth - B12" the claim states. -/
theorem invoiceId_example_counterexample :
    invoiceId none "Alexandria Bartholomew" "recAB1234567" ≠ "Alexandria Barth - B12" ∧
    invoiceId none "Alexandria Bartholomew" "recAB1234567" = "Alexandria Bart - AB1" := by
  constructor <;> decide

/-- C6, amended: the synthesized invoice id for requester
"Alexandria Bartholomew" and record id "recAB1234567" is
"Alexandria Bart - AB1"; in general a synthesized id never exceeds the
21-character limit, and a non-empty vendor-supplied invoice id is used
unchanged instead. -/
theorem invoiceId_synthesis :
    invoiceId none "Alexandria Bartholomew" "recAB1234567" = "Alexandria Bart - AB1" ∧
    (∀ requester recordId : String, (invoiceId none requester recordId).length ≤ 21) ∧
    (∀ v requester recordId : String, v ≠ "" →
      invoiceId (some v) requester recordId = v) := by
  refine ⟨by decide, ?_, ?_⟩
  · intro requester recordId
    show (jsSubstring requester 0 15 ++ " - " ++ jsSubstring recordId 3 6).length ≤ 21
    rw [String.length_append, String.length_append]
    have h1 : (jsSubstring requester 0 15).length ≤ 15 := by
      simpa using jsSubstring_length_le requester 0 15
    have h2 : (jsSubstring recordId 3 6).length ≤ 3 := by
      simpa using jsSubstring_length_le recordId 3 6
    have h3 : (" - " : String).length = 3 := rfl
    omega
  · intro v requester recordId hv
    show (if v = "" then jsSubstring requester 0 15 ++ " - " ++ jsSubstring recordId 3 6
      else v) = v
    exact if_neg hv

/-- Witness for `invoiceId_synthesis` at concrete inputs. -/
theorem invoiceId_synthesis_witness :
    invoiceId (some "INV-42") "Someone" "recXYZ1234" = "INV-42" ∧
    (invoiceId none "Alexandria Bartholomew" "recAB1234567").length ≤ 21 :=
  ⟨invoiceId_synthesis.2.2 "INV-42" "Someone" "recXYZ1234" (by decide),
    invoiceId_synthesis.2.1 "Alexandria Bartholomew" "recAB1234567"⟩

/-- C4, counterexample: for a check-request line item with an expense
date, the encoded description built by the bill-creation workflow does
not match the merchant pattern consumed by the reconciliation engine (the
string is URI-encoded, so it contains no raw newline, and its city, state
and zip are joined with " & " rather than " | "). -/
theorem merchant_roundtrip_counterexample :
    (lineItemDescription
      ⟨some "2024-01-02", some "lunch", some "Store", some "1 Way", some "Town",
        some "ST", some "12345"⟩).isSome = true ∧
    matchMerchant
      ((lineItemDescription
        ⟨some "2024-01-02", some "lunch", some "Store", some "1 Way", some "Town",
          some "ST", some "12345"⟩).getD "") = none := by
  constructor <;> decide

/-- C4, amended: for every check-request line item with an expense date,
the bill-creation workflow emits the URI-encoded packed merchant string
with " & "-joined city, state and zip; that string never matches the
merchant pattern of the reconciliation engine (which requires raw
newlines and " | " separators), so the engine does not recover the packed
fields and instead falls back to the bill-level vendor. -/
theorem merchant_roundtrip_fails (item : CheckRequestItem) (date enc : String)
    (hdate : item.itemExpenseDate = some date)
    (henc : lineItemDescription item = some enc) :
    matchMerchant enc = none ∧
    ∀ (vendors : List (String × VendorInfo)) (bill : Bill) (li : LineItem),
      li.description = enc →
      itemVendor vendors bill li = vendorMerchant (alGet vendors bill.vendorId) := by
  have hm : matchMerchant enc = none := by
    simp only [lineItemDescription, hdate] at henc
    injection henc with henc
    subst henc
    exact matchMerchant_no_newline _ (newline_not_mem_encode _)
  refine ⟨hm, ?_⟩
  intro vendors bill li hli
  simp only [itemVendor, hli, hm]

/-- Witness for `merchant_roundtrip_fails` at a concrete line item. -/
theorem merchant_roundtrip_fails_witness :
    matchMerchant
      (encodeURIComponent
        ("2024-01-01" ++ "\n" ++ "Shop" ++ "\n" ++ "2 Way" ++ "\n" ++ "City" ++ " & " ++
          "CA" ++ " & " ++ "90210" ++ "\n" ++ "dinner")) = none :=
  (merchant_roundtrip_fails
    ⟨some "2024-01-01", some "dinner", some "Shop", some "2 Way", some "City",
      some "CA", some "90210"⟩ "2024-01-01" _ rfl rfl).1

/-- C8: for each record-store operation (select, update, create, find),
a failure of the underlying Airtable library call propagates as a single
wrapped error whose message carries the operation verb ("selecting",
"updating", "creating", "finding") and the table name. -/
theorem record_store_errors_wrapped {α : Type} (b : RecordBackend)
    (table view recordId : String) (func : MirrorRow → Except String α)
    (updates : List (String × Fields)) (creates : List Fields) (e : String) :
    (b.selectAll table view = Except.error e →
      Base.select b table view func =
        Except.error ("Error selecting records in Airtable Table " ++ table ++ ": " ++ e)) ∧
    (batchAsync (b.updateRecords table) updates 10 = Except.error e →
      Base.update b table updates =
        Except.error ("Error updating records in Airtable Table " ++ table ++ ": " ++ e)) ∧
    (batchAsync (b.createRecords table) creates 10 = Except.error e →
      Base.create b table creates =
        Except.error ("Error creating records in Airtable Table " ++ table ++ ": " ++ e)) ∧
    (b.findRecord table recordId = Except.error e →
      Base.find b table recordId func =
        Except.error ("Error finding records in Airtable Table " ++ table ++ ": " ++ e)) := by
  refine ⟨?_, ?_, ?_, ?_⟩
  · intro h
    show catchError ((b.selectAll table view).bind _) "selecting" table = _
    rw [h]
    rfl
  · intro h
    show catchError (batchAsync (b.updateRecords table) updates 10) "updating" table = _
    rw [h]
    rfl
  · intro h
    show catchError (batchAsync (b.createRecords table) creates 10) "creating" table = _
    rw [h]
    rfl
  · intro h
    show catchError ((b.findRecord table recordId).bind _) "finding" table = _
    rw [h]
    rfl

/-- Witness for `record_store_errors_wrapped` with a backend whose calls
all fail. -/
theorem record_store_errors_wrapped_witness :
    Base.select
        ⟨fun _ _ => Except.error "boom", fun _ _ => Except.error "boom",
          fun _ _ => Except.error "boom", fun _ _ => Except.error "boom"⟩
        "Bill Reporting" "" (fun r => Except.ok r.id) =
      Except.error "Error selecting records in Airtable Table Bill Reporting: boom" ∧
    Base.update
        ⟨fun _ _ => Except.error "boom", fun _ _ => Except.error "boom",
          fun _ _ => Except.error "boom", fun _ _ => Except.error "boom"⟩
        "Bill Reporting" [("recA", [("Active", Val.bool false)])] =
      Except.error "Error updating records in Airtable Table Bill Reporting: boom" :=
  ⟨(record_store_errors_wrapped
      ⟨fun _ _ => Except.error "boom", fun _ _ => Except.error "boom",
        fun _ _ => Except.error "boom", fun _ _ => Except.error "boom"⟩
      "Bill Reporting" "" "recA" (fun r => Except.ok r.id)
      [("recA", [("Active", Val.bool false)])] [] "boom").1 rfl,
    (record_store_errors_wrapped
      ⟨fun _ _ => Except.error "boom", fun _ _ => Except.error "boom",
        fun _ _ => Except.error "boom", fun _ _ => Except.error "boom"⟩
      "Bill Reporting" "" "recA" (fun r => Except.ok r.id)
      [("recA", [("Active", Val.bool false)])] [] "boom").2.1
      (by simp [batchAsync, Except.bind])⟩

/-- C9: `selectAndUpdate` issues an `update([{id, fields}])` call exactly
for the rows whose `fieldsFunc` result is non-null; a row whose result is
null gets no update call, and the net effect of all issued calls leaves
that row untouched. -/
theorem selectAndUpdate_rows (records : List MirrorRow)
    (fieldsFunc : MirrorRow → Option Fields)
    (hIds : (records.map MirrorRow.id).Nodup) :
    (∀ r ∈ records, ∀ fs, fieldsFunc r = some fs →
      (r.id, fs) ∈ Base.selectAndUpdateCalls records fieldsFunc) ∧
    (∀ r ∈ records, fieldsFunc r = none →
      (∀ fs, (r.id, fs) ∉ Base.selectAndUpdateCalls records fieldsFunc) ∧
      applyRow (Base.selectAndUpdateCalls records fieldsFunc) r = r) := by
  constructor
  · intro r hr fs hfs
    exact List.mem_filterMap.mpr ⟨r, hr, by rw [hfs]; rfl⟩
  · intro r hr hnone
    have hnot : ∀ u ∈ Base.selectAndUpdateCalls records fieldsFunc, u.1 ≠ r.id := by
      intro u hu
      obtain ⟨x, hx, hxe⟩ := List.mem_filterMap.mp hu
      cases hfx : fieldsFunc x with
      | none =>
          rw [hfx] at hxe
          cases hxe
      | some fs =>
          rw [hfx] at hxe
          injection hxe with hxe
          subst hxe
          show x.id ≠ r.id
          intro hh
          have hxr : x = r := List.inj_on_of_nodup_map hIds hx hr hh
          rw [hxr, hnone] at hfx
          cases hfx
    constructor
    · intro fs hmem
      exact hnot _ hmem rfl
    · exact applyRow_nomatch _ _ hnot

/-- Witness for `selectAndUpdate_rows` on a two-row table where only the
first row produces fields. -/
theorem selectAndUpdate_rows_witness :
    (("r1", [("Active", Val.bool true)]) ∈
      Base.selectAndUpdateCalls [⟨"r1", []⟩, ⟨"r2", []⟩]
        (fun r => if r.id = "r1" then some [("Active", Val.bool true)] else none)) ∧
    applyRow
        (Base.selectAndUpdateCalls [⟨"r1", []⟩, ⟨"r2", []⟩]
          (fun r => if r.id = "r1" then some [("Active", Val.bool true)] else none))
        ⟨"r2", []⟩ = ⟨"r2", []⟩ :=
  ⟨(selectAndUpdate_rows [⟨"r1", []⟩, ⟨"r2", []⟩]
      (fun r => if r.id = "r1" then some [("Active", Val.bool true)] else none)
      (by decide)).1 ⟨"r1", []⟩ (by decide) [("Active", Val.bool true)] rfl,
    ((selectAndUpdate_rows [⟨"r1", []⟩, ⟨"r2", []⟩]
      (fun r => if r.id = "r1" then some [("Active", Val.bool true)] else none)
      (by decide)).2 ⟨"r2", []⟩ (by decide) rfl).2⟩

theorem uploadDocs_first_failure (fetch : String → FetchResponse)
    (upload : String → String → Except String Unit) (newBillId : String)
    (pre post : List Doc) (d : Doc)
    (hpre : ∀ p ∈ pre, responseOk (fetch p.url) = true ∧
      upload newBillId p.filename = Except.ok ())
    (hfail : responseOk (fetch d.url) = false) :
    uploadDocs fetch upload newBillId (pre ++ d :: post) =
      Except.error (fetchError (fetch d.url).status d.filename (fetch d.url).statusText) := by
  induction pre with
  | nil =>
      show uploadDocs fetch upload newBillId (d :: post) = _
      simp [uploadDocs, hfail]
  | cons p ps ih =>
      have hp := hpre p (List.mem_cons_self p ps)
      rw [List.cons_append]
      show uploadDocs fetch upload newBillId (p :: (ps ++ d :: post)) = _
      simp only [uploadDocs, hp.1, if_true, hp.2]
      exact ih (fun q hq => hpre q (List.mem_cons_of_mem p hq))

/-- C7: when a supporting document's fetch returns a non-2xx response
(all documents before it having fetched and uploaded fine), the row's
processing ends in the `fetchError` message naming the HTTP status, the
filename and the status text, and the confirmation fields (`Active`,
invoice id, new ledger bill id) are never returned, so `selectAndUpdate`
writes nothing back to the request row. -/
theorem attachment_fetch_failure (fetch : String → FetchResponse)
    (upload : String → String → Except String Unit) (invoice newBillId : String)
    (pre post : List Doc) (d : Doc)
    (hpre : ∀ p ∈ pre, responseOk (fetch p.url) = true ∧
      upload newBillId p.filename = Except.ok ())
    (hfail : responseOk (fetch d.url) = false) :
    docsAndConfirm fetch upload invoice newBillId (pre ++ d :: post) =
      Except.error
        (fetchError (fetch d.url).status d.filename (fetch d.url).statusText) ∧
    (∃ s t : String,
      fetchError (fetch d.url).status d.filename (fetch d.url).statusText =
        s ++ d.filename ++ t) ∧
    (∃ s t : String,
      fetchError (fetch d.url).status d.filename (fetch d.url).statusText =
        s ++ toString (fetch d.url).status ++ t) ∧
    ∀ fs, docsAndConfirm fetch upload invoice newBillId (pre ++ d :: post) ≠
      Except.ok fs := by
  have hloop := uploadDocs_first_failure fetch upload newBillId pre post d hpre hfail
  have hdc : docsAndConfirm fetch upload invoice newBillId (pre ++ d :: post) =
      Except.error
        (fetchError (fetch d.url).status d.filename (fetch d.url).statusText) := by
    rw [docsAndConfirm, hloop]
  refine ⟨hdc, ?_, ?_, ?_⟩
  · refine ⟨"Error " ++ toString (fetch d.url).status ++ " fetching ",
      ": " ++ (fetch d.url).statusText, ?_⟩
    rw [fetchError]
    simp [String.append_assoc]
  · refine ⟨"Error ",
      " fetching " ++ d.filename ++ ": " ++ (fetch d.url).statusText, ?_⟩
    rw [fetchError]
    simp [String.append_assoc]
  · intro fs h
    rw [hdc] at h
    cases h

/-- Witness for `attachment_fetch_failure`: a single document whose fetch
returns 404. -/
theorem attachment_fetch_failure_witness :
    docsAndConfirm (fun _ => ⟨404, "Not Found"⟩) (fun _ _ => Except.ok ()) "INV" "bill1"
        [⟨"https://x/doc.pdf", "doc.pdf"⟩] =
      Except.error (fetchError 404 "doc.pdf" "Not Found") :=
  (attachment_fetch_failure (fun _ => ⟨404, "Not Found"⟩) (fun _ _ => Except.ok ())
    "INV" "bill1" [] [] ⟨"https://x/doc.pdf", "doc.pdf"⟩
    (fun p hp => absurd hp (List.not_mem_nil p)) (by decide)).1

theorem matchLines_date_ne (lines : List (List Char)) (g : MerchantMatch)
    (h : matchLines lines = some g) : g.date ≠ "" := by
  induction lines with
  | nil => simp [matchLines] at h
  | cons d rest ih =>
      rcases rest with _ | ⟨n, rest1⟩
      · simp [matchLines] at h
      rcases rest1 with _ | ⟨a, rest2⟩
      · simp [matchLines] at h
      rcases rest2 with _ | ⟨csz, rest3⟩
      · simp [matchLines] at h
      rcases rest3 with _ | ⟨ds, tl⟩
      · simp [matchLines] at h
      rw [matchLines] at h
      by_cases hcond : d ≠ [] ∧ n ≠ [] ∧ a ≠ [] ∧ ds ≠ []
      · rw [if_pos hcond] at h
        cases hs : splitCsz csz with
        | some czs =>
            rw [hs] at h
            obtain ⟨c, s, z⟩ := czs
            injection h with h
            subst h
            intro hh
            exact hcond.1 (by simpa using congrArg String.data hh)
        | none =>
            rw [hs] at h
            exact ih h
      · rw [if_neg hcond] at h
        exact ih h

theorem matchMerchant_date_ne (s : String) (g : MerchantMatch)
    (h : matchMerchant s = some g) : g.date ≠ "" :=
  matchLines_date_ne _ _ h

theorem itemFields_merchant_lookups (vendors : List (String × VendorInfo))
    (coa cust : List (String × String)) (sid : String) (np : Nat)
    (bill : Bill) (item : LineItem) :
    alGet (itemFields vendors coa cust sid np bill item) "Vendor Name" =
      some (optVal (itemVendor vendors bill item).name) ∧
    alGet (itemFields vendors coa cust sid np bill item) "Vendor Address" =
      some (optVal (itemVendor vendors bill item).address) ∧
    alGet (itemFields vendors coa cust sid np bill item) "Vendor City" =
      some (optVal (itemVendor vendors bill item).city) ∧
    alGet (itemFields vendors coa cust sid np bill item) "Vendor State" =
      some (optVal (itemVendor vendors bill item).state) ∧
    alGet (itemFields vendors coa cust sid np bill item) "Vendor Zip Code" =
      some (optVal (itemVendor vendors bill item).zip) ∧
    alGet (itemFields vendors coa cust sid np bill item) "Expense Date" =
      some (Val.str (jsOr (itemVendor vendors bill item).date bill.invoiceDate)) := by
  rw [itemFields_eq]
  exact ⟨rfl, rfl, rfl, rfl, rfl, rfl⟩

theorem vendorMerchant_fields (o : Option VendorInfo) :
    (vendorMerchant o).date = none ∧
    (vendorMerchant o).name = o.map VendorInfo.name ∧
    (vendorMerchant o).address = o.bind VendorInfo.address ∧
    (vendorMerchant o).city = o.bind VendorInfo.city ∧
    (vendorMerchant o).state = o.bind VendorInfo.state ∧
    (vendorMerchant o).zip = o.bind VendorInfo.zip := by
  cases o <;> simp [vendorMerchant]

/-- C5: when a line item's description matches the merchant pattern, the
engine stores the extracted merchant name, address, city, state and zip
and the extracted date as the expense date, in preference to the
bill-level vendor; when it does not match, the engine stores the
bill-level vendor's fields (looked up by `bill.vendorId`) and the bill's
invoice date. -/
theorem merchant_pattern_preference (vendors : List (String × VendorInfo))
    (coa cust : List (String × String)) (sid : String) (np : Nat)
    (bill : Bill) (item : LineItem) :
    (∀ g, matchMerchant item.description = some g →
      alGet (itemFields vendors coa cust sid np bill item) "Vendor Name" =
        some (Val.str g.name) ∧
      alGet (itemFields vendors coa cust sid np bill item) "Vendor Address" =
        some (Val.str g.address) ∧
      alGet (itemFields vendors coa cust sid np bill item) "Vendor City" =
        some (Val.str g.city) ∧
      alGet (itemFields vendors coa cust sid np bill item) "Vendor State" =
        some (Val.str g.state) ∧
      alGet (itemFields vendors coa cust sid np bill item) "Vendor Zip Code" =
        some (Val.str g.zip) ∧
      alGet (itemFields vendors coa cust sid np bill item) "Expense Date" =
        some (Val.str g.date)) ∧
    (matchMerchant item.description = none →
      alGet (itemFields vendors coa cust sid np bill item) "Vendor Name" =
        some (optVal ((alGet vendors bill.vendorId).map VendorInfo.name)) ∧
      alGet (itemFields vendors coa cust sid np bill item) "Vendor Address" =
        some (optVal ((alGet vendors bill.vendorId).bind VendorInfo.address)) ∧
      alGet (itemFields vendors coa cust sid np bill item) "Vendor City" =
        some (optVal ((alGet vendors bill.vendorId).bind VendorInfo.city)) ∧
      alGet (itemFields vendors coa cust sid np bill item) "Vendor State" =
        some (optVal ((alGet vendors bill.vendorId).bind VendorInfo.state)) ∧
      alGet (itemFields vendors coa cust sid np bill item) "Vendor Zip Code" =
        some (optVal ((alGet vendors bill.vendorId).bind VendorInfo.zip)) ∧
      alGet (itemFields vendors coa cust sid np bill item) "Expense Date" =
        some (Val.str bill.invoiceDate)) := by
  obtain ⟨hn, ha, hc, hs, hz, he⟩ :=
    itemFields_merchant_lookups vendors coa cust sid np bill item
  constructor
  · intro g hg
    have hiv : itemVendor vendors bill item =
        ⟨some g.date, some g.name, some g.address, some g.city, some g.state,
          some g.zip, some g.description⟩ := by
      simp [itemVendor, hg]
    rw [hiv] at hn ha hc hs hz he
    have hdate : g.date ≠ "" := matchMerchant_date_ne _ _ hg
    rw [show jsOr (some g.date) bill.invoiceDate =
      (if g.date = "" then bill.invoiceDate else g.date) from rfl, if_neg hdate] at he
    exact ⟨hn, ha, hc, hs, hz, he⟩
  · intro hg
    have hiv : itemVendor vendors bill item =
        vendorMerchant (alGet vendors bill.vendorId) := by
      simp [itemVendor, hg]
    rw [hiv] at hn ha hc hs hz he
    obtain ⟨hd0, h1, h2, h3, h4, h5⟩ := vendorMerchant_fields (alGet vendors bill.vendorId)
    rw [h1] at hn
    rw [h2] at ha
    rw [h3] at hc
    rw [h4] at hs
    rw [h5] at hz
    rw [hd0] at he
    exact ⟨hn, ha, hc, hs, hz, he⟩

/-- Witness for `merchant_pattern_preference`: a matching packed
description yields the packed merchant fields. -/
theorem merchant_pattern_preference_witness :
    alGet
        (itemFields [("v1", ⟨"Acme", some "9 St", some "Ogden", some "UT", some "11111"⟩)]
          [] [] "sess" 1
          ⟨"b1", "v1", "2024-01-03", "INV", none, "3", "1", []⟩
          ⟨"li1", "2024-01-02\nStore\n1 Way\nTown | ST | 12345\nlunch", "t", none,
            Val.num 1, none⟩)
        "Vendor Name" = some (Val.str "Store") ∧
    alGet
        (itemFields [("v1", ⟨"Acme", some "9 St", some "Ogden", some "UT", some "11111"⟩)]
          [] [] "sess" 1
          ⟨"b1", "v1", "2024-01-03", "INV", none, "3", "1", []⟩
          ⟨"li1", "2024-01-02\nStore\n1 Way\nTown | ST | 12345\nlunch", "t", none,
            Val.num 1, none⟩)
        "Expense Date" = some (Val.str "2024-01-02") ∧
    alGet
        (itemFields [("v1", ⟨"Acme", some "9 St", some "Ogden", some "UT", some "11111"⟩)]
          [] [] "sess" 1
          ⟨"b1", "v1", "2024-01-03", "INV", none, "3", "1", []⟩
          ⟨"li2", "plain description", "t", none, Val.num 1, none⟩)
        "Vendor Name" = some (Val.str "Acme") := by
  refine ⟨?_, ?_, ?_⟩
  · exact ((merchant_pattern_preference
      [("v1", ⟨"Acme", some "9 St", some "Ogden", some "UT", some "11111"⟩)] [] [] "sess" 1
      ⟨"b1", "v1", "2024-01-03", "INV", none, "3", "1", []⟩
      ⟨"li1", "2024-01-02\nStore\n1 Way\nTown | ST | 12345\nlunch", "t", none,
        Val.num 1, none⟩).1
      ⟨"2024-01-02", "Store", "1 Way", "Town", "ST", "12345", "lunch"⟩ (by decide)).1
  · exact ((merchant_pattern_preference
      [("v1", ⟨"Acme", some "9 St", some "Ogden", some "UT", some "11111"⟩)] [] [] "sess" 1
      ⟨"b1", "v1", "2024-01-03", "INV", none, "3", "1", []⟩
      ⟨"li1", "2024-01-02\nStore\n1 Way\nTown | ST | 12345\nlunch", "t", none,
        Val.num 1, none⟩).1
      ⟨"2024-01-02", "Store", "1 Way", "Town", "ST", "12345", "lunch"⟩
      (by decide)).2.2.2.2.2
  · exact ((merchant_pattern_preference
      [("v1", ⟨"Acme", some "9 St", some "Ogden", some "UT", some "11111"⟩)] [] [] "sess" 1
      ⟨"b1", "v1", "2024-01-03", "INV", none, "3", "1", []⟩
      ⟨"li2", "plain description", "t", none, Val.num 1, none⟩).2 (by decide)).1

/-- C1: assuming the mirror table's key field values and record ids are
unique, after one reconciliation run every line item of the active ledger
fetch has exactly one mirror row whose key equals the item's id, and that
row's fields carry `Active: true` and every value computed in the Changes
Map for that line item. -/
theorem active_item_mirrored (env : SyncEnv) (table : List MirrorRow)
    (fresh : Nat → String)
    (hKeys : (table.filterMap rowKey).Nodup)
    (hIds : (table.map MirrorRow.id).Nodup)
    (bill : Bill) (item : LineItem) (fs : Fields)
    (hbill : bill ∈ env.bills) (hitem : item ∈ bill.billLineItems)
    (hfs : alGet (buildChanges env) item.id = some fs) :
    ((runSync env table fresh).countP
        (fun r => decide (rowKey r = some item.id)) = 1) ∧
    ∀ r ∈ runSync env table fresh, rowKey r = some item.id →
      alGet r.fields "Active" = some (Val.bool true) ∧
      ∀ name v, alGet fs name = some v → alGet r.fields name = some v := by
  have hok := buildChanges_ok env
  have hwf := buildChanges_wf env
  obtain ⟨hact, hkeyf, hfswf⟩ := hok item.id fs hfs
  have hmapkey : ∀ r : MirrorRow,
      rowKey ⟨r.id, setFields r.fields (updFor (buildChanges env) r)⟩ = rowKey r :=
    rowKey_setFields_updFor _ hok
  rw [runSync_eq env table fresh hKeys hIds]
  have hremwf := changesAfter_wf table _ hwf
  have hmc : (table.map
        (fun r => (⟨r.id, setFields r.fields (updFor (buildChanges env) r)⟩ : MirrorRow))).countP
        (fun r => decide (rowKey r = some item.id)) =
      table.countP (fun r => decide (rowKey r = some item.id)) := by
    rw [List.countP_map]
    apply List.countP_congr
    intro r _
    simp [Function.comp, hmapkey r]
  have hcr : (mkCreates fresh 0
        (createFields (changesAfter table (buildChanges env)))).countP
        (fun r => decide (rowKey r = some item.id)) =
      ((changesAfter table (buildChanges env)).map Prod.fst).count item.id := by
    have h1 := countP_mkCreates fresh 0
      (createFields (changesAfter table (buildChanges env)))
      (fun fsx => decide (fieldsKey fsx = some item.id))
    have h2 : (createFields (changesAfter table (buildChanges env))).countP
        (fun fsx => decide (fieldsKey fsx = some item.id)) =
        (changesAfter table (buildChanges env)).countP
          (fun p => decide (p.1 = item.id)) := by
      rw [createFields, List.countP_map]
      apply List.countP_congr
      intro p _
      simp [Function.comp, fieldsKey_create]
    rw [count_map_fst]
    rw [← h2, ← h1]
    rfl
  constructor
  · rw [List.countP_append, hmc, hcr]
    by_cases hhit : ∃ r ∈ table, rowKey r = some item.id
    · obtain ⟨r0, hr0, hk0⟩ := hhit
      have h1 : table.countP (fun r => decide (rowKey r = some item.id)) = 1 := by
        rw [countP_rowKey_eq_count]
        exact List.count_eq_one_of_mem hKeys (List.mem_filterMap.mpr ⟨r0, hr0, hk0⟩)
      have hrem : alGet (changesAfter table (buildChanges env)) item.id = none :=
        changesAfter_hit table _ item.id r0 hwf hr0 hk0
      have h0 : ((changesAfter table (buildChanges env)).map Prod.fst).count item.id = 0 :=
        List.count_eq_zero.mpr ((alGet_eq_none_iff _ _).mp hrem)
      rw [h1, h0]
    · have h1 : table.countP (fun r => decide (rowKey r = some item.id)) = 0 := by
        apply List.countP_eq_zero.mpr
        intro r hr
        simp only [decide_eq_true_eq]
        exact fun hk => hhit ⟨r, hr, hk⟩
      have hrem : alGet (changesAfter table (buildChanges env)) item.id = some fs := by
        rw [changesAfter_preserve table _ item.id (fun r hr hk => hhit ⟨r, hr, hk⟩)]
        exact hfs
      have h0 : ((changesAfter table (buildChanges env)).map Prod.fst).count item.id = 1 :=
        List.count_eq_one_of_mem hremwf (alGet_some_mem_keys hrem)
      rw [h1, h0]
  · intro r hr hkr
    rcases List.mem_append.mp hr with hmem | hmem
    · obtain ⟨r0, hr0, rfl⟩ := List.mem_map.mp hmem
      have hk0 : rowKey r0 = some item.id := by
        rw [← hmapkey r0]
        exact hkr
      have hupd : updFor (buildChanges env) r0 = fs := by
        rw [updFor, hk0, Option.some_bind, hfs, Option.getD_some]
      show alGet (setFields r0.fields (updFor (buildChanges env) r0)) "Active" =
          some (Val.bool true) ∧ _
      rw [hupd]
      exact ⟨alGet_setFields_of_some _ _ _ _ hfswf hact,
        fun name v hv => alGet_setFields_of_some _ _ _ _ hfswf hv⟩
    · have hfields := mem_mkCreates_fields fresh 0 _ r hmem
      rw [createFields] at hfields
      obtain ⟨p, hp, hpe⟩ := List.mem_map.mp hfields
      have hkey : rowKey r = some p.1 := by
        rw [rowKey_eq_fieldsKey, ← hpe, fieldsKey_create]
      have hp1 : p.1 = item.id := by
        rw [hkey] at hkr
        exact Option.some.inj hkr
      have hgrem : alGet (changesAfter table (buildChanges env)) item.id = some p.2 := by
        have hmemp : (item.id, p.2) ∈ changesAfter table (buildChanges env) := by
          rw [← hp1]
          exact hp
        exact alGet_of_mem hremwf hmemp
      have hnothit : ∀ r' ∈ table, rowKey r' ≠ some item.id := by
        intro r' hr' hk'
        have hz := changesAfter_hit table _ item.id r' hwf hr' hk'
        rw [hz] at hgrem
        cases hgrem
      rw [changesAfter_preserve table _ item.id hnothit, hfs] at hgrem
      have hp2 : p.2 = fs := (Option.some.inj hgrem).symm
      have hrf : r.fields = alSet fs primaryBillComId (Val.str item.id) := by
        rw [← hpe, hp1, hp2]
      rw [hrf]
      have hactne : primaryBillComId ≠ "Active" := by decide
      constructor
      · rw [alGet_alSet_ne _ _ _ _ hactne]
        exact hact
      · intro name v hv
        by_cases hn : primaryBillComId = name
        · subst hn
          rw [alGet_alSet_self]
          rw [hkeyf] at hv
          injection hv with hv
          rw [← hv]
        · rw [alGet_alSet_ne _ _ _ _ hn]
          exact hv

/-- A concrete ledger line item for concrete runs of the engine. -/
def exItem : LineItem :=
  ⟨"li1", "stuff", "2024-01-02T03:04:05.000+0000", some "coa1", Val.num 5, some "cust1"⟩

/-- A concrete bill holding `exItem`. -/
def exBill : Bill :=
  ⟨"b1", "v1", "2024-01-03", "INV-7", some "Submitted by Jo (jo@x.org).", "3", "1",
    [exItem]⟩

/-- A concrete Bill.com environment with one vendor, one chart of account,
one customer and one bill. -/
def exEnv : SyncEnv :=
  ⟨"sess", [⟨"v1", "Acme", some "1 Way", some "Town", some "ST", some "12345"⟩],
    [⟨"coa1", "Travel"⟩], [⟨"cust1", "Proj"⟩], [exBill], fun _ => 1⟩

/-- A concrete mirror table: one row matching `exItem` and one stale row. -/
def exTable : List MirrorRow :=
  [⟨"recA", [(primaryBillComId, Val.str "li1"), ("Vendor Name", Val.str "Old")]⟩,
   ⟨"recB", [(primaryBillComId, Val.str "gone"), ("Amount", Val.num 9)]⟩]

/-- Fresh Airtable record ids for created rows. -/
def exFresh : Nat → String := fun i => "recNew" ++ toString i

/-- Witness for `active_item_mirrored` on the concrete environment. -/
theorem active_item_mirrored_witness :
    ((runSync exEnv exTable exFresh).countP
        (fun r => decide (rowKey r = some "li1")) = 1) ∧
    ∀ r ∈ runSync exEnv exTable exFresh, rowKey r = some "li1" →
      alGet r.fields "Active" = some (Val.bool true) ∧
      ∀ name v, alGet (itemFieldsOf exEnv exBill exItem) name = some v →
        alGet r.fields name = some v :=
  active_item_mirrored exEnv exTable exFresh (by decide) (by decide) exBill exItem
    (itemFieldsOf exEnv exBill exItem) (by decide) (by decide) (by decide)

theorem alGet_inactive_cases (name : String) (v : Val)
    (h : alGet inactiveFields name = some v) : name = "Active" ∧ v = Val.bool false := by
  rw [show inactiveFields = [("Active", Val.bool false)] from rfl, alGet_cons] at h
  by_cases hn : "Active" = name
  · rw [if_pos hn] at h
    injection h with h
    exact ⟨hn.symm, h.symm⟩
  · rw [if_neg hn, alGet_nil] at h
    cases h

/-- C2: for a mirror row whose key is absent from the Changes Map (that
is, whose key field matches no active-ledger line item), the run stages
an update whose field set is exactly `{Active: false}`; after the run the
resulting row has `Active: false` and every other field unchanged. -/
theorem absent_key_deactivated (env : SyncEnv) (xs ys : List MirrorRow) (r : MirrorRow)
    (fresh : Nat → String)
    (hIds : ((xs ++ r :: ys).map MirrorRow.id).Nodup)
    (habs : ∀ k, rowKey r = some k → alGet (buildChanges env) k = none) :
    (syncUpdates (xs ++ r :: ys) (buildChanges env)).1 =
      (syncUpdates xs (buildChanges env)).1 ++
        (r.id, inactiveFields) ::
          (syncUpdates ys
            (match rowKey r with
             | some k => alDel (changesAfter xs (buildChanges env)) k
             | none => changesAfter xs (buildChanges env))).1 ∧
    (⟨r.id, setFields r.fields inactiveFields⟩ : MirrorRow) ∈
      runSync env (xs ++ r :: ys) fresh ∧
    alGet (setFields r.fields inactiveFields) "Active" = some (Val.bool false) ∧
    ∀ name, name ≠ "Active" →
      alGet (setFields r.fields inactiveFields) name = alGet r.fields name := by
  have hupdr : updFor (changesAfter xs (buildChanges env)) r = inactiveFields := by
    cases hk : rowKey r with
    | none =>
        rw [updFor, hk]
        rfl
    | some k =>
        rw [updFor, hk, Option.some_bind, changesAfter_none xs _ k (habs k hk)]
        rfl
  have hsplit : (syncUpdates (xs ++ r :: ys) (buildChanges env)).1 =
      (syncUpdates xs (buildChanges env)).1 ++
        (r.id, inactiveFields) ::
          (syncUpdates ys
            (match rowKey r with
             | some k => alDel (changesAfter xs (buildChanges env)) k
             | none => changesAfter xs (buildChanges env))).1 := by
    rw [show (syncUpdates (xs ++ r :: ys) (buildChanges env)).1 =
        (syncUpdates xs (buildChanges env)).1 ++
          (syncUpdates (r :: ys) (changesAfter xs (buildChanges env))).1 from by
      rw [syncUpdates_append]]
    rw [syncUpdates_fst_cons, hupdr]
  refine ⟨hsplit, ?_, ?_, ?_⟩
  · show (⟨r.id, setFields r.fields inactiveFields⟩ : MirrorRow) ∈
      applyUpdates (xs ++ r :: ys) (syncUpdates (xs ++ r :: ys) (buildChanges env)).1 ++
        mkCreates fresh 0
          (createFields (syncUpdates (xs ++ r :: ys) (buildChanges env)).2)
    apply List.mem_append_left
    rw [applyUpdates_eq_map]
    apply List.mem_map.mpr
    refine ⟨r, List.mem_append_right xs (List.mem_cons_self r ys), ?_⟩
    rw [hsplit]
    rw [List.map_append, List.map_cons] at hIds
    rw [List.nodup_append] at hIds
    obtain ⟨h₁, h₂, hdisj⟩ := hIds
    rw [List.nodup_cons] at h₂
    apply applyRow_single
    · intro u hu
      have : u.1 ∈ (syncUpdates xs (buildChanges env)).1.map Prod.fst :=
        List.mem_map.mpr ⟨u, hu, rfl⟩
      rw [syncUpdates_fst_ids] at this
      intro hh
      exact hdisj this (hh ▸ List.mem_cons_self r.id _)
    · intro u hu
      have : u.1 ∈ (syncUpdates ys
          (match rowKey r with
           | some k => alDel (changesAfter xs (buildChanges env)) k
           | none => changesAfter xs (buildChanges env))).1.map Prod.fst :=
        List.mem_map.mpr ⟨u, hu, rfl⟩
      rw [syncUpdates_fst_ids] at this
      intro hh
      exact h₂.1 (hh ▸ this)
  · exact alGet_setFields_of_some _ _ _ _
      (show (inactiveFields.map Prod.fst).Nodup by decide) alGet_inactive_active
  · intro name hn
    exact alGet_setFields_of_none _ _ _ (inactive_other name hn)

/-- Witness for `absent_key_deactivated`: the stale row `recB` of the
concrete table is staged exactly `{Active: false}` and kept otherwise
unchanged. -/
theorem absent_key_deactivated_witness :
    ((⟨"recB", setFields [(primaryBillComId, Val.str "gone"), ("Amount", Val.num 9)]
        inactiveFields⟩ : MirrorRow) ∈
      runSync exEnv exTable exFresh) ∧
    alGet (setFields [(primaryBillComId, Val.str "gone"), ("Amount", Val.num 9)]
        inactiveFields) "Amount" =
      alGet [(primaryBillComId, Val.str "gone"), ("Amount", Val.num 9)] "Amount" :=
  ⟨(absent_key_deactivated exEnv
      [⟨"recA", [(primaryBillComId, Val.str "li1"), ("Vendor Name", Val.str "Old")]⟩] []
      ⟨"recB", [(primaryBillComId, Val.str "gone"), ("Amount", Val.num 9)]⟩ exFresh
      (by decide) (by decide)).2.1,
    (absent_key_deactivated exEnv
      [⟨"recA", [(primaryBillComId, Val.str "li1"), ("Vendor Name", Val.str "Old")]⟩] []
      ⟨"recB", [(primaryBillComId, Val.str "gone"), ("Amount", Val.num 9)]⟩ exFresh
      (by decide) (by decide)).2.2.2 "Amount" (by decide)⟩

/-- C10: when the mirror table holds several rows with the same key and
that key is in the Changes Map, the run still completes (the diff is a
total function): the first such row in stream order is staged the full
Changes-Map entry (and the entry is deleted), while every later row with
that key is staged only `{Active: false}`. -/
theorem duplicate_key_first_wins (env : SyncEnv) (xs ys : List MirrorRow) (r : MirrorRow)
    (k : String) (fs : Fields)
    (hx : ∀ x ∈ xs, rowKey x ≠ some k) (hr : rowKey r = some k)
    (hfs : alGet (buildChanges env) k = some fs) :
    (syncUpdates (xs ++ r :: ys) (buildChanges env)).1 =
      (syncUpdates xs (buildChanges env)).1 ++
        (r.id, fs) ::
          (syncUpdates ys (alDel (changesAfter xs (buildChanges env)) k)).1 ∧
    ∀ p ∈ (syncUpdates ys (alDel (changesAfter xs (buildChanges env)) k)).1.zip ys,
      rowKey p.2 = some k → p.1 = (p.2.id, inactiveFields) := by
  have hpres : alGet (changesAfter xs (buildChanges env)) k = some fs := by
    rw [changesAfter_preserve xs _ k hx]
    exact hfs
  constructor
  · rw [show (syncUpdates (xs ++ r :: ys) (buildChanges env)).1 =
        (syncUpdates xs (buildChanges env)).1 ++
          (syncUpdates (r :: ys) (changesAfter xs (buildChanges env))).1 from by
      rw [syncUpdates_append]]
    rw [syncUpdates_fst_cons, hr, updFor, hr, Option.some_bind, hpres, Option.getD_some]
  · intro p hp hkey
    have hnone : alGet (alDel (changesAfter xs (buildChanges env)) k) k = none :=
      alGet_alDel_self _ _ (changesAfter_wf xs _ (buildChanges_wf env))
    exact syncUpdates_AF_zip ys _ k hnone p hp hkey

/-- Witness for `duplicate_key_first_wins`: two rows both keyed "li1";
the first is staged the full entry, the second `{Active: false}`. -/
theorem duplicate_key_first_wins_witness :
    (syncUpdates
        ([] ++ (⟨"recA", [(primaryBillComId, Val.str "li1")]⟩ : MirrorRow) ::
          [⟨"recC", [(primaryBillComId, Val.str "li1")]⟩])
        (buildChanges exEnv)).1 =
      (syncUpdates [] (buildChanges exEnv)).1 ++
        ("recA", itemFieldsOf exEnv exBill exItem) ::
          (syncUpdates [⟨"recC", [(primaryBillComId, Val.str "li1")]⟩]
            (alDel (changesAfter [] (buildChanges exEnv)) "li1")).1 ∧
    (("recC", inactiveFields),
        (⟨"recC", [(primaryBillComId, Val.str "li1")]⟩ : MirrorRow)).1 =
      ((("recC", inactiveFields),
          (⟨"recC", [(primaryBillComId, Val.str "li1")]⟩ : MirrorRow)).2.id,
        inactiveFields) :=
  ⟨(duplicate_key_first_wins exEnv []
      [⟨"recC", [(primaryBillComId, Val.str "li1")]⟩]
      ⟨"recA", [(primaryBillComId, Val.str "li1")]⟩ "li1"
      (itemFieldsOf exEnv exBill exItem)
      (fun x hx => absurd hx (List.not_mem_nil x)) (by decide) (by decide)).1,
    (duplicate_key_first_wins exEnv []
      [⟨"recC", [(primaryBillComId, Val.str "li1")]⟩]
      ⟨"recA", [(primaryBillComId, Val.str "li1")]⟩ "li1"
      (itemFieldsOf exEnv exBill exItem)
      (fun x hx => absurd hx (List.not_mem_nil x)) (by decide) (by decide)).2
      (("recC", inactiveFields), ⟨"recC", [(primaryBillComId, Val.str "li1")]⟩)
      (by decide) (by decide)⟩

theorem filterMap_rowKey_mapped (table : List MirrorRow)
    (changes : List (String × Fields)) (hok : ChangesOk changes) :
    (table.map
      (fun r => (⟨r.id, setFields r.fields (updFor changes r)⟩ : MirrorRow))).filterMap
        rowKey =
      table.filterMap rowKey := by
  rw [List.filterMap_map]
  apply List.filterMap_congr
  intro r _
  show rowKey ⟨r.id, setFields r.fields (updFor changes r)⟩ = rowKey r
  exact rowKey_setFields_updFor changes hok r

theorem filterMap_rowKey_mkCreates (fresh : Nat → String) (i : Nat)
    (rem : List (String × Fields)) :
    (mkCreates fresh i (createFields rem)).filterMap rowKey = rem.map Prod.fst := by
  induction rem generalizing i with
  | nil => rfl
  | cons p rest ih =>
      show (mkCreates fresh i
        (alSet p.2 primaryBillComId (Val.str p.1) :: createFields rest)).filterMap rowKey = _
      rw [show mkCreates fresh i
          (alSet p.2 primaryBillComId (Val.str p.1) :: createFields rest) =
        (⟨fresh i, alSet p.2 primaryBillComId (Val.str p.1)⟩ : MirrorRow) ::
          mkCreates fresh (i + 1) (createFields rest) from rfl]
      have hk : rowKey ⟨fresh i, alSet p.2 primaryBillComId (Val.str p.1)⟩ = some p.1 := by
        rw [rowKey_eq_fieldsKey, fieldsKey_create]
      simp only [List.filterMap_cons, hk]
      rw [ih (i + 1)]
      rfl

/-- C3: with unique mirror keys and record ids, reconciliation is
idempotent: a second run against the post-run table with the same ledger
data stages one update per row whose field values are all already stored
(zero effective delta), and leaves no Changes-Map entry to create (the
second creates batch is empty). -/
theorem reconciliation_idempotent (env : SyncEnv) (table : List MirrorRow)
    (fresh : Nat → String)
    (hKeys : (table.filterMap rowKey).Nodup)
    (hIds : (table.map MirrorRow.id).Nodup) :
    (syncUpdates (runSync env table fresh) (buildChanges env)).1 =
      (runSync env table fresh).map (fun r => (r.id, updFor (buildChanges env) r)) ∧
    (∀ r ∈ runSync env table fresh, ∀ name v,
      alGet (updFor (buildChanges env) r) name = some v →
      alGet r.fields name = some v) ∧
    (syncUpdates (runSync env table fresh) (buildChanges env)).2 = [] := by
  have hok := buildChanges_ok env
  have hwf := buildChanges_wf env
  have hrunsync := runSync_eq env table fresh hKeys hIds
  have hremwf := changesAfter_wf table _ hwf
  have htab1keys : ((runSync env table fresh).filterMap rowKey).Nodup := by
    rw [hrunsync, List.filterMap_append, filterMap_rowKey_mapped table _ hok,
      filterMap_rowKey_mkCreates fresh 0 _]
    rw [List.nodup_append]
    refine ⟨hKeys, hremwf, ?_⟩
    intro k hk1 hk2
    obtain ⟨r0, hr0, hk0⟩ := List.mem_filterMap.mp hk1
    have hz := changesAfter_hit table _ k r0 hwf hr0 hk0
    rw [alGet_eq_none_iff] at hz
    exact hz hk2
  refine ⟨syncUpdates_fst_map _ _ htab1keys, ?_, ?_⟩
  · intro r hr name v hv
    rw [hrunsync] at hr
    rcases List.mem_append.mp hr with hmem | hmem
    · obtain ⟨r0, hr0, rfl⟩ := List.mem_map.mp hmem
      have hkk : rowKey ⟨r0.id, setFields r0.fields (updFor (buildChanges env) r0)⟩ =
          rowKey r0 := rowKey_setFields_updFor _ hok r0
      have hupdeq : updFor (buildChanges env)
          ⟨r0.id, setFields r0.fields (updFor (buildChanges env) r0)⟩ =
          updFor (buildChanges env) r0 := by
        conv_lhs => rw [updFor]
        rw [hkk]
        rfl
      rw [hupdeq] at hv
      cases hb : (rowKey r0).bind (alGet (buildChanges env)) with
      | none =>
          rw [updFor, hb, Option.getD_none] at hv
          obtain ⟨hname, hval⟩ := alGet_inactive_cases name v hv
          subst hname
          subst hval
          show alGet (setFields r0.fields (updFor (buildChanges env) r0)) "Active" =
            some (Val.bool false)
          rw [updFor, hb, Option.getD_none]
          exact alGet_setFields_of_some _ _ _ _
            (show (inactiveFields.map Prod.fst).Nodup by decide) alGet_inactive_active
      | some fs =>
          obtain ⟨k, hk, hcf⟩ := Option.bind_eq_some.mp hb
          obtain ⟨_, _, hfswf⟩ := hok k fs hcf
          rw [updFor, hb, Option.getD_some] at hv
          show alGet (setFields r0.fields (updFor (buildChanges env) r0)) name = some v
          rw [updFor, hb, Option.getD_some]
          exact alGet_setFields_of_some _ _ _ _ hfswf hv
    · have hfields := mem_mkCreates_fields fresh 0 _ r hmem
      rw [createFields] at hfields
      obtain ⟨p, hp, hpe⟩ := List.mem_map.mp hfields
      have hkey : rowKey r = some p.1 := by
        rw [rowKey_eq_fieldsKey, ← hpe, fieldsKey_create]
      have hremget : alGet (changesAfter table (buildChanges env)) p.1 = some p.2 :=
        alGet_of_mem hremwf (show (p.1, p.2) ∈ _ from hp)
      have hnothit : ∀ r' ∈ table, rowKey r' ≠ some p.1 := by
        intro r' hr' hk'
        have hz := changesAfter_hit table _ p.1 r' hwf hr' hk'
        rw [hz] at hremget
        cases hremget
      have hchget : alGet (buildChanges env) p.1 = some p.2 := by
        rw [← changesAfter_preserve table _ p.1 hnothit]
        exact hremget
      obtain ⟨_, hkeyf, _⟩ := hok p.1 p.2 hchget
      rw [updFor, hkey, Option.some_bind, hchget, Option.getD_some] at hv
      rw [← hpe]
      by_cases hn : primaryBillComId = name
      · subst hn
        rw [alGet_alSet_self]
        rw [hkeyf] at hv
        injection hv with hv
        rw [← hv]
      · rw [alGet_alSet_ne _ _ _ _ hn]
        exact hv
  · apply eq_nil_of_alGet_none
    intro k
    show alGet (changesAfter (runSync env table fresh) (buildChanges env)) k = none
    by_cases hhit : ∃ r1 ∈ runSync env table fresh, rowKey r1 = some k
    · obtain ⟨r1, hr1, hk1⟩ := hhit
      exact changesAfter_hit _ _ k r1 hwf hr1 hk1
    · rw [changesAfter_preserve _ _ k (fun r1 hr1 hk1 => hhit ⟨r1, hr1, hk1⟩)]
      cases hc : alGet (buildChanges env) k with
      | none => rfl
      | some fs =>
          exfalso
          apply hhit
          by_cases htab : ∃ r0 ∈ table, rowKey r0 = some k
          · obtain ⟨r0, hr0, hk0⟩ := htab
            refine ⟨⟨r0.id, setFields r0.fields (updFor (buildChanges env) r0)⟩, ?_, ?_⟩
            · rw [hrunsync]
              exact List.mem_append_left _ (List.mem_map.mpr ⟨r0, hr0, rfl⟩)
            · rw [rowKey_setFields_updFor _ hok r0]
              exact hk0
          · have hpres : alGet (changesAfter table (buildChanges env)) k = some fs := by
              rw [changesAfter_preserve table _ k (fun r0 hr0 hk0 => htab ⟨r0, hr0, hk0⟩)]
              exact hc
            have hmemrem : (k, fs) ∈ changesAfter table (buildChanges env) :=
              mem_of_alGet hpres
            have hcf : alSet fs primaryBillComId (Val.str k) ∈
                createFields (changesAfter table (buildChanges env)) :=
              List.mem_map.mpr ⟨(k, fs), hmemrem, rfl⟩
            obtain ⟨r1, hr1, hr1f⟩ := mkCreates_exists_of_mem fresh 0 _ _ hcf
            refine ⟨r1, ?_, ?_⟩
            · rw [hrunsync]
              exact List.mem_append_right _ hr1
            · rw [rowKey_eq_fieldsKey, hr1f, fieldsKey_create]

/-- Witness for `reconciliation_idempotent` on the concrete environment
and table. -/
theorem reconciliation_idempotent_witness :
    (syncUpdates (runSync exEnv exTable exFresh) (buildChanges exEnv)).1 =
      (runSync exEnv exTable exFresh).map
        (fun r => (r.id, updFor (buildChanges exEnv) r)) ∧
    (∀ r ∈ runSync exEnv exTable exFresh, ∀ name v,
      alGet (updFor (buildChanges exEnv) r) name = some v →
      alGet r.fields name = some v) ∧
    (syncUpdates (runSync exEnv exTable exFresh) (buildChanges exEnv)).2 = [] :=
  reconciliation_idempotent exEnv exTable exFresh (by decide) (by decide)
